import Mathlib

/-!
Image Pro: the transaction thread

A shallow embedding of `chap14/imagepro/transactionthread.{h,cpp}`.

* `Transaction` is the abstract base class (its two virtual functions);
  `FlipTransaction`, `ResizeTransaction` and `ConvertDepthTransaction` are the
  three subclasses.  The `QImage` operations they call belong to Qt and are
  taken as a parameter (`QImageApi`).
* `TransactionThread` is the object state: the two data members guarded by the
  mutex (`currentImage`, `transactions`), the position of the secondary thread
  inside `run()`, and the events the secondary thread has produced so far.
* Every critical section (a `QMutexLocker` scope) is one atomic step, because
  all accesses to the shared members sit inside such scopes.  A schedule is a
  list of steps taken by the callers and by the secondary thread; quantifying
  over schedules quantifies over interleavings.
-/

namespace ImagePro

/-! ## Qt types used by the transactions -/

/-- Qt::Orientation. -/
inductive Orientation where
  | Horizontal
  | Vertical
  deriving DecidableEq, Repr

/-- The QImage::Format values chosen in `ConvertDepthTransaction::apply`. -/
inductive Format where
  | Format_Mono
  | Format_Indexed8
  | Format_RGB32
  deriving DecidableEq, Repr

/-- QSize. -/
structure QSize where
  width : Int
  height : Int
  deriving DecidableEq, Repr

/-- The part of Qt the transactions call, over an image type `I`:
`QImage()`, `QImage::mirrored`, `QImage::scaled` (always called with
`Qt::IgnoreAspectRatio, Qt::SmoothTransformation`), `QImage::convertToFormat`
and `QObject::tr`. -/
structure QImageApi (I : Type) where
  null : I
  mirrored : Bool → Bool → I → I
  scaled : QSize → I → I
  convertToFormat : Format → I → I
  tr : String → String

/-! ## Transactions -/

/-- The abstract class `Transaction`: `apply` and `message`. -/
structure Transaction (I : Type) where
  apply : I → I
  message : String

/-- A queue entry is a `Transaction *`; the null pointer is `none`. -/
abbrev TransactionPtr (I : Type) := Option (Transaction I)

/-- `Transaction * const EndTransaction = 0;` -/
def EndTransaction {I : Type} : TransactionPtr I := none

/-- `FlipTransaction::apply`. -/
def FlipTransaction.apply {I : Type} (qt : QImageApi I) (orientation : Orientation)
    (image : I) : I :=
  qt.mirrored (orientation == Orientation.Horizontal)
    (orientation == Orientation.Vertical) image

/-- `FlipTransaction::message`. -/
def FlipTransaction.message {I : Type} (qt : QImageApi I) (orientation : Orientation) :
    String :=
  if orientation == Orientation.Horizontal then
    qt.tr "Flipping image horizontally..."
  else
    qt.tr "Flipping image vertically..."

/-- A `FlipTransaction` object built with the given orientation. -/
def FlipTransaction {I : Type} (qt : QImageApi I) (orientation : Orientation) :
    Transaction I :=
  { apply := FlipTransaction.apply qt orientation
    message := FlipTransaction.message qt orientation }

/-- `ResizeTransaction::apply`. -/
def ResizeTransaction.apply {I : Type} (qt : QImageApi I) (size : QSize) (image : I) : I :=
  qt.scaled size image

/-- `ResizeTransaction::message`. -/
def ResizeTransaction.message {I : Type} (qt : QImageApi I) : String :=
  qt.tr "Resizing image..."

/-- A `ResizeTransaction` object built with the given size. -/
def ResizeTransaction {I : Type} (qt : QImageApi I) (size : QSize) : Transaction I :=
  { apply := ResizeTransaction.apply qt size
    message := ResizeTransaction.message qt }

/-- The `switch (depth)` of `ConvertDepthTransaction::apply`. -/
def ConvertDepthTransaction.format (depth : Int) : Format :=
  if depth = 1 then Format.Format_Mono
  else if depth = 8 then Format.Format_Indexed8
  else Format.Format_RGB32

/-- `ConvertDepthTransaction::apply`. -/
def ConvertDepthTransaction.apply {I : Type} (qt : QImageApi I) (depth : Int)
    (image : I) : I :=
  qt.convertToFormat (ConvertDepthTransaction.format depth) image

/-- `ConvertDepthTransaction::message`. -/
def ConvertDepthTransaction.message {I : Type} (qt : QImageApi I) : String :=
  qt.tr "Converting image depth..."

/-- A `ConvertDepthTransaction` object built with the given depth. -/
def ConvertDepthTransaction {I : Type} (qt : QImageApi I) (depth : Int) : Transaction I :=
  { apply := ConvertDepthTransaction.apply qt depth
    message := ConvertDepthTransaction.message qt }

/-! ## The thread object -/

/-- What the secondary thread does that an observer can see: it takes and
releases the mutex, emits the two signals, calls `apply`, and writes
`currentImage`. -/
inductive Event (I : Type) where
  | lock
  | unlock
  | transactionStarted (message : String)
  | apply (transact : Transaction I) (oldImage : I)
  | store (newImage : I)
  | allTransactionsDone

/-- Where the secondary thread stands inside `run()`, with the values of its
local variables that are still going to be read. -/
inductive Worker (I : Type) where
  /-- At the top of the `forever` body, before the first `QMutexLocker`. -/
  | top
  /-- Blocked inside `transactionAdded.wait(&mutex)`; the mutex is released. -/
  | waiting
  /-- Released from `wait` and about to take the mutex again; the next
  statement is `transactions.dequeue()`. -/
  | woken
  /-- After the first critical section: about to emit `transactionStarted`. -/
  | dequeued (transact : Transaction I) (oldImage : I)
  /-- After the emit: about to call `transact->apply(oldImage)`. -/
  | started (transact : Transaction I) (oldImage : I)
  /-- After `apply` and `delete transact`: about to enter the second
  critical section. -/
  | applied (newImage : I)
  /-- After `break`: `run()` has returned. -/
  | finished
  /-- After `transactions.dequeue()` on an empty queue (undefined). -/
  | fault

/-- The members of `TransactionThread` guarded by `mutex`, the position of
the secondary thread, whether the destructor has run its critical section,
and the events of the secondary thread so far. -/
structure TransactionThread (I : Type) where
  currentImage : I
  transactions : List (TransactionPtr I)
  worker : Worker I
  destroyed : Bool
  trace : List (Event I)

/-- `QWaitCondition::wakeOne` with the secondary thread as the only possible
waiter. -/
def wakeOne {I : Type} (w : Worker I) : Worker I :=
  match w with
  | Worker.waiting => Worker.woken
  | w => w

/-- The loop `while (!transactions.isEmpty()) delete transactions.dequeue();`. -/
def deleteAll {I : Type} : List (TransactionPtr I) → List (TransactionPtr I)
  | [] => []
  | _ :: rest => deleteAll rest

namespace TransactionThread

variable {I : Type}

/-- The object right after the constructor: `start()` has been called, the
image is a default `QImage`, the queue is empty. -/
def init (qt : QImageApi I) : TransactionThread I :=
  { currentImage := qt.null
    transactions := []
    worker := Worker.top
    destroyed := false
    trace := [] }

/-- `TransactionThread::addTransaction`. -/
def addTransaction (s : TransactionThread I) (transact : TransactionPtr I) :
    TransactionThread I :=
  { s with
    transactions := s.transactions ++ [transact]
    worker := wakeOne s.worker }

/-- `TransactionThread::setImage`. -/
def setImage (s : TransactionThread I) (image : I) : TransactionThread I :=
  { s with currentImage := image }

/-- `TransactionThread::image`. -/
def image (s : TransactionThread I) : I :=
  s.currentImage

/-- The critical section of `TransactionThread::~TransactionThread`. -/
def destructor (s : TransactionThread I) : TransactionThread I :=
  { s with
    transactions := deleteAll s.transactions ++ [EndTransaction]
    worker := wakeOne s.worker
    destroyed := true }

/-- The tail of the first critical section of `run()`, from
`transact = transactions.dequeue();` to the closing brace.  `pre` holds the
events of the section up to that statement. -/
def dequeue (s : TransactionThread I) (pre : List (Event I)) : TransactionThread I :=
  match s.transactions with
  | [] => { s with worker := Worker.fault, trace := s.trace ++ pre }
  | none :: rest =>
    { s with
      transactions := rest
      worker := Worker.finished
      trace := s.trace ++ pre ++ [Event.unlock] }
  | some transact :: rest =>
    { s with
      transactions := rest
      worker := Worker.dequeued transact s.currentImage
      trace := s.trace ++ pre ++ [Event.unlock] }

/-- One step of `TransactionThread::run`: the next critical section, or the
next statement between two critical sections.  A blocked or returned thread
does not move. -/
def run (s : TransactionThread I) : TransactionThread I :=
  match s.worker with
  | Worker.top =>
    if s.transactions.isEmpty then
      { s with worker := Worker.waiting, trace := s.trace ++ [Event.lock, Event.unlock] }
    else
      dequeue s [Event.lock]
  | Worker.waiting => s
  | Worker.woken => dequeue s [Event.lock]
  | Worker.dequeued transact oldImage =>
    { s with
      worker := Worker.started transact oldImage
      trace := s.trace ++ [Event.transactionStarted transact.message] }
  | Worker.started transact oldImage =>
    { s with
      worker := Worker.applied (transact.apply oldImage)
      trace := s.trace ++ [Event.apply transact oldImage] }
  | Worker.applied newImage =>
    { s with
      currentImage := newImage
      worker := Worker.top
      trace := s.trace ++ [Event.lock, Event.store newImage]
        ++ (if s.transactions.isEmpty then [Event.allTransactionsDone] else [])
        ++ [Event.unlock] }
  | Worker.finished => s
  | Worker.fault => s

end TransactionThread

/-! ## Schedules -/

/-- One step of an execution: a call of a public function by some caller
thread, the destructor, a step of the secondary thread, or a return from
`wait` that no `wakeOne` caused. -/
inductive Action (I : Type) where
  | addTransaction (transact : TransactionPtr I)
  | setImage (image : I)
  | destroy
  | run
  | spuriousWakeup

variable {I : Type}

/-- The effect of one action.  The destructor runs once. -/
def step (s : TransactionThread I) : Action I → TransactionThread I
  | Action.addTransaction transact => s.addTransaction transact
  | Action.setImage image => s.setImage image
  | Action.destroy => if s.destroyed then s else s.destructor
  | Action.run => s.run
  | Action.spuriousWakeup => { s with worker := wakeOne s.worker }

/-- Run a schedule. -/
def exec (s : TransactionThread I) (sched : List (Action I)) : TransactionThread I :=
  sched.foldl step s

/-! ## Reading a trace -/

/-- The two signals of `TransactionThread`. -/
inductive Notification where
  | transactionStarted (message : String)
  | allTransactionsDone
  deriving DecidableEq, Repr

/-- The signal emitted by an event, if it is an emission. -/
def Event.notification : Event I → Option Notification
  | Event.transactionStarted m => some (Notification.transactionStarted m)
  | Event.allTransactionsDone => some Notification.allTransactionsDone
  | _ => none

/-- The signals of a trace, in order. -/
def notifications (tr : List (Event I)) : List Notification :=
  tr.filterMap Event.notification

/-- The transaction an event applies, if it is a call of `apply`. -/
def Event.applied : Event I → Option (Transaction I)
  | Event.apply t _ => some t
  | _ => none

/-- The transactions `apply` was called on, in order. -/
def applies (tr : List (Event I)) : List (Transaction I) :=
  tr.filterMap Event.applied

/-- The image an event writes to `currentImage`, if it is a store. -/
def Event.stored : Event I → Option I
  | Event.store img => some img
  | _ => none

/-- The images written to `currentImage` by the secondary thread, in order. -/
def stores (tr : List (Event I)) : List I :=
  tr.filterMap Event.stored

/-! ## Executions without shutdown -/

/-- The actions of an execution in which callers only submit transaction
objects and the secondary thread runs. -/
def Action.plain : Action I → Bool
  | Action.run => true
  | Action.addTransaction (some _) => true
  | _ => false

/-- The transaction an action submits. -/
def Action.submits : Action I → Option (Transaction I)
  | Action.addTransaction (some t) => some t
  | _ => none

/-- The transactions submitted by a schedule, in submission order. -/
def submitted (sched : List (Action I)) : List (Transaction I) :=
  sched.filterMap Action.submits

/-- The left fold of `apply` over an image. -/
def foldApply (ts : List (Transaction I)) (a : I) : I :=
  ts.foldl (fun img t => t.apply img) a

/-- The secondary thread is between two iterations of `run()`. -/
def Worker.idle : Worker I → Bool
  | Worker.top => true
  | Worker.waiting => true
  | _ => false

/-- Nothing is queued and nothing is in flight: every submitted transaction
has been processed. -/
def quiescent (s : TransactionThread I) : Bool :=
  s.transactions.isEmpty && s.worker.idle

/-- The transaction objects in the queue. -/
def queued (s : TransactionThread I) : List (Transaction I) :=
  s.transactions.filterMap id

/-- The image the iteration in flight is going to store, or the current
image between iterations. -/
def pendingImage (s : TransactionThread I) : I :=
  match s.worker with
  | Worker.dequeued t old => t.apply old
  | Worker.started t old => t.apply old
  | Worker.applied new => new
  | _ => s.currentImage

/-- The transactions taken from the queue on which `apply` has not been
called yet, followed by the queued ones. -/
def unapplied (s : TransactionThread I) : List (Transaction I) :=
  match s.worker with
  | Worker.dequeued t _ => t :: queued s
  | Worker.started t _ => t :: queued s
  | _ => queued s

/-- The number of steps of `run()` that empty the queue. -/
def fuel (s : TransactionThread I) : Nat :=
  match s.worker with
  | Worker.dequeued _ _ => 3 + 4 * s.transactions.length
  | Worker.started _ _ => 2 + 4 * s.transactions.length
  | Worker.applied _ => 1 + 4 * s.transactions.length
  | _ => 4 * s.transactions.length

/-- What holds of every state of an execution without shutdown: the queue
holds objects only, and the secondary thread is blocked exactly when there is
nothing to take. -/
structure PlainInv (s : TransactionThread I) : Prop where
  objects : ∀ p ∈ s.transactions, p ≠ none
  woken : s.worker = Worker.woken → s.transactions ≠ []
  waiting : s.worker = Worker.waiting → s.transactions = []
  running : s.worker ≠ Worker.finished ∧ s.worker ≠ Worker.fault

/-! ## Executions after the destructor -/

/-- The iteration of `run()` has taken a transaction and not yet stored its
result. -/
def Worker.inFlight : Worker I → Bool
  | Worker.dequeued _ _ => true
  | Worker.started _ _ => true
  | Worker.applied _ => true
  | _ => false

/-- The events the secondary thread still produces when the sentinel is at
the head of the queue: the rest of the iteration in flight, then the
critical section that takes the sentinel. -/
def remaining : Worker I → List (Event I)
  | Worker.top => [Event.lock, Event.unlock]
  | Worker.waiting => [Event.lock, Event.unlock]
  | Worker.woken => [Event.lock, Event.unlock]
  | Worker.dequeued t old =>
    [Event.transactionStarted t.message, Event.apply t old, Event.lock,
      Event.store (t.apply old), Event.unlock, Event.lock, Event.unlock]
  | Worker.started t old =>
    [Event.apply t old, Event.lock, Event.store (t.apply old), Event.unlock,
      Event.lock, Event.unlock]
  | Worker.applied new =>
    [Event.lock, Event.store new, Event.unlock, Event.lock, Event.unlock]
  | Worker.finished => []
  | Worker.fault => []

/-- The action is a call of `setImage`. -/
def Action.setsImage : Action I → Bool
  | Action.setImage _ => true
  | _ => false

/-- The action is a call of `addTransaction`. -/
def Action.adds : Action I → Bool
  | Action.addTransaction _ => true
  | _ => false

/-- What holds of every state after the destructor's critical section:
`run()` has returned, or the sentinel is at the head of the queue and the
secondary thread is not blocked. -/
def ShutInv (s : TransactionThread I) : Prop :=
  s.destroyed = true ∧
    (s.worker = Worker.finished ∨
      (s.transactions.head? = some EndTransaction ∧ s.worker ≠ Worker.waiting))

/-! ## Order of the events of `run()` -/

/-- How far the iteration described by a trace has got. -/
inductive Phase (I : Type) where
  /-- No transaction started yet, or `allTransactionsDone` was the last
  of the checked events. -/
  | idle
  /-- The last checked event is `transactionStarted message`. -/
  | started (message : String)
  /-- The last checked event is a call of `apply` that returned `result`. -/
  | applied (result : I)
  /-- The last checked event is the store of `result`. -/
  | stored (result : I)

/-- One step of the order check.  `transactionStarted` opens an iteration;
the next call of `apply` is on a transaction with that message; the next
store writes what that call returned; `allTransactionsDone` comes right
after a store.  Taking and releasing the mutex is not checked here. -/
def orderStep [DecidableEq I] (ph : Phase I) (e : Event I) : Option (Phase I) :=
  match e, ph with
  | Event.lock, ph => some ph
  | Event.unlock, ph => some ph
  | Event.transactionStarted m, Phase.idle => some (Phase.started m)
  | Event.transactionStarted m, Phase.stored _ => some (Phase.started m)
  | Event.apply t old, Phase.started m =>
    if m = t.message then some (Phase.applied (t.apply old)) else none
  | Event.store img, Phase.applied result =>
    if img = result then some (Phase.stored img) else none
  | Event.allTransactionsDone, Phase.stored _ => some Phase.idle
  | _, _ => none

/-- The order check continued from `acc` (`none`: already failed). -/
def orderFrom [DecidableEq I] (acc : Option (Phase I)) (tr : List (Event I)) :
    Option (Phase I) :=
  tr.foldl (fun acc e => acc.bind (fun ph => orderStep ph e)) acc

/-- The order check of a whole trace: `none` if an event is out of order. -/
def order [DecidableEq I] (tr : List (Event I)) : Option (Phase I) :=
  orderFrom (some Phase.idle) tr

/-- The phase a trace must have reached for the secondary thread to stand at
`w`. -/
def phaseOf (w : Worker I) (ph : Phase I) : Prop :=
  match w with
  | Worker.started t _ => ph = Phase.started t.message
  | Worker.applied new => ph = Phase.applied new
  | _ => ph = Phase.idle ∨ ∃ result, ph = Phase.stored result

/-! ## Lock discipline -/

/-- One step of the lock check.  `held` tells whether the secondary thread
holds the mutex.  Events in `outside` must happen with the mutex released,
events in `inside` with the mutex held. -/
def lockStep (outside inside : Event I → Bool) (held : Bool) (e : Event I) : Option Bool :=
  match e with
  | Event.lock => if held then none else some true
  | Event.unlock => if held then some false else none
  | e => if (held && outside e) || (!held && inside e) then none else some held

/-- The lock check continued from `acc`. -/
def lockFrom (outside inside : Event I → Bool) (acc : Option Bool) (tr : List (Event I)) :
    Option Bool :=
  tr.foldl (fun acc e => acc.bind (fun held => lockStep outside inside held e)) acc

/-- The lock check of a whole trace: `none` if an event happens on the wrong
side of the mutex, otherwise whether the mutex is held at the end. -/
def lockCheck (outside inside : Event I → Bool) (tr : List (Event I)) : Option Bool :=
  lockFrom outside inside (some false) tr

/-- A call of `apply` or the emission of either signal. -/
def Event.isWork : Event I → Bool
  | Event.apply _ _ => true
  | Event.transactionStarted _ => true
  | Event.allTransactionsDone => true
  | _ => false

/-- A call of `apply` or the emission of `transactionStarted`. -/
def Event.isSlowWork : Event I → Bool
  | Event.apply _ _ => true
  | Event.transactionStarted _ => true
  | _ => false

/-- The write of `currentImage` or the emission of `allTransactionsDone`. -/
def Event.isGuarded : Event I → Bool
  | Event.store _ => true
  | Event.allTransactionsDone => true
  | _ => false

/-- No event is required on either side. -/
def Event.never (_ : Event I) : Bool := false

/-- The secondary thread stopped inside `dequeue()` on an empty queue. -/
def Worker.isFault : Worker I → Bool
  | Worker.fault => true
  | _ => false

/-- The action is a return from `wait` without a `wakeOne`. -/
def Action.spurious : Action I → Bool
  | Action.spuriousWakeup => true
  | _ => false

/-! ## The shape of the signals -/

/-- The signals of one completed iteration: `transactionStarted`, then
`allTransactionsDone` if the queue was empty at the store. -/
def block (b : Transaction I × Bool) : List Notification :=
  Notification.transactionStarted b.1.message ::
    (if b.2 then [Notification.allTransactionsDone] else [])

/-- The signals of a sequence of completed iterations. -/
def render : List (Transaction I × Bool) → List Notification
  | [] => []
  | b :: bs => block b ++ render bs

/-- The signals emitted so far are those of the completed iterations, one
block per call of `apply`, followed by the `transactionStarted` of the
iteration in flight; and when the thread is between iterations with an empty
queue, the last completed iteration has emitted `allTransactionsDone`. -/
def NotifInv (s : TransactionThread I) : Prop :=
  match s.worker with
  | Worker.started t _ =>
    ∃ bs, notifications s.trace = render bs ++ [Notification.transactionStarted t.message]
      ∧ bs.map Prod.fst = applies s.trace
  | Worker.applied _ =>
    ∃ bs t, notifications s.trace = render bs ++ [Notification.transactionStarted t.message]
      ∧ bs.map Prod.fst ++ [t] = applies s.trace
  | _ =>
    ∃ bs, notifications s.trace = render bs
      ∧ bs.map Prod.fst = applies s.trace
      ∧ (s.transactions = [] → s.worker.idle = true →
          bs = [] ∨ ∃ bs0 t, bs = bs0 ++ [(t, true)])

/-! ## The stages of an iteration -/

/-- Where a trace of the secondary thread stands with respect to the two
critical sections of an iteration of `run()`. -/
inductive Stage where
  /-- Mutex released, no transaction in hand. -/
  | outside
  /-- Inside the first critical section (the one that waits and dequeues). -/
  | first
  /-- Mutex released, `transactionStarted` emitted. -/
  | announced
  /-- Mutex released, `apply` has returned. -/
  | computed
  /-- Inside the second critical section, before the write of `currentImage`. -/
  | second
  /-- Inside the second critical section, right after the write. -/
  | written
  /-- Inside the second critical section, right after `allTransactionsDone`. -/
  | signalled
  deriving DecidableEq, Repr

/-- One step of the stage check.  `transactionStarted` and `apply` happen
with the mutex released, in that order; the next `lock` opens the second
critical section; the write of `currentImage` is its first event;
`allTransactionsDone` is accepted only right after that write, before the
`unlock` of the same section. -/
def stageStep (st : Stage) (e : Event I) : Option Stage :=
  match e, st with
  | Event.lock, Stage.outside => some Stage.first
  | Event.unlock, Stage.first => some Stage.outside
  | Event.transactionStarted _, Stage.outside => some Stage.announced
  | Event.apply _ _, Stage.announced => some Stage.computed
  | Event.lock, Stage.computed => some Stage.second
  | Event.store _, Stage.second => some Stage.written
  | Event.allTransactionsDone, Stage.written => some Stage.signalled
  | Event.unlock, Stage.written => some Stage.outside
  | Event.unlock, Stage.signalled => some Stage.outside
  | _, _ => none

/-- The stage check continued from `acc` (`none`: already failed). -/
def stageFrom (acc : Option Stage) (tr : List (Event I)) : Option Stage :=
  tr.foldl (fun acc e => acc.bind (fun st => stageStep st e)) acc

/-- The stage check of a whole trace. -/
def stages (tr : List (Event I)) : Option Stage :=
  stageFrom (some Stage.outside) tr

/-- The stage of the trace when the secondary thread stands at `w`. -/
def stageOf : Worker I → Stage
  | Worker.started _ _ => Stage.announced
  | Worker.applied _ => Stage.computed
  | Worker.fault => Stage.first
  | _ => Stage.outside

/-! ## Two transactions, one after the other -/

/-- The `transactionStarted` signal of a transaction. -/
def startedOf (t : Transaction I) : Notification :=
  Notification.transactionStarted t.message

/-- Nothing submitted yet: empty queue, thread between iterations, no signal
and no write so far. -/
def Fresh (s : TransactionThread I) : Prop :=
  s.transactions = [] ∧ (s.worker = Worker.top ∨ s.worker = Worker.waiting)
    ∧ notifications s.trace = [] ∧ stores s.trace = []

/-- The states of the object while `r` is the only transaction left to
process, when the signals before it were `sigs` and `n` writes of
`currentImage` had been made: `r` queued, taken, announced, applied, and
finally stored with the queue empty. -/
def Last (sigs : List Notification) (n : Nat) (r : Transaction I)
    (s : TransactionThread I) : Prop :=
  match s.worker with
  | Worker.top =>
    (s.transactions = [some r] ∧ notifications s.trace = sigs
        ∧ (stores s.trace).length = n)
      ∨ (s.transactions = []
        ∧ notifications s.trace = sigs ++ [startedOf r, Notification.allTransactionsDone]
        ∧ (stores s.trace).length = n + 1)
  | Worker.woken =>
    s.transactions = [some r] ∧ notifications s.trace = sigs ∧ (stores s.trace).length = n
  | Worker.waiting =>
    s.transactions = []
      ∧ notifications s.trace = sigs ++ [startedOf r, Notification.allTransactionsDone]
      ∧ (stores s.trace).length = n + 1
  | Worker.dequeued t _ =>
    t = r ∧ s.transactions = [] ∧ notifications s.trace = sigs
      ∧ (stores s.trace).length = n
  | Worker.started t _ =>
    t = r ∧ s.transactions = [] ∧ notifications s.trace = sigs ++ [startedOf r]
      ∧ (stores s.trace).length = n
  | Worker.applied _ =>
    s.transactions = [] ∧ notifications s.trace = sigs ++ [startedOf r]
      ∧ (stores s.trace).length = n
  | _ => False

/-- The states of the object while `f` is not stored yet and `r` is queued
behind it. -/
def FirstOfTwo (f r : Transaction I) (s : TransactionThread I) : Prop :=
  match s.worker with
  | Worker.top =>
    s.transactions = [some f, some r] ∧ notifications s.trace = [] ∧ stores s.trace = []
  | Worker.woken =>
    s.transactions = [some f, some r] ∧ notifications s.trace = [] ∧ stores s.trace = []
  | Worker.dequeued t _ =>
    t = f ∧ s.transactions = [some r] ∧ notifications s.trace = [] ∧ stores s.trace = []
  | Worker.started t _ =>
    t = f ∧ s.transactions = [some r] ∧ notifications s.trace = [startedOf f]
      ∧ stores s.trace = []
  | Worker.applied _ =>
    s.transactions = [some r] ∧ notifications s.trace = [startedOf f] ∧ stores s.trace = []
  | _ => False

/-! ## The sentinel in the queue -/

/-- The queue holds the sentinel. -/
def sentinelQueued (q : List (TransactionPtr I)) : Bool :=
  q.any Option.isNone

/-- The last element of the queue is the sentinel. -/
def sentinelLast (q : List (TransactionPtr I)) : Bool :=
  match q.getLast? with
  | some none => true
  | _ => false

/-- The first element of the queue is the sentinel. -/
def sentinelFirst (q : List (TransactionPtr I)) : Bool :=
  match q.head? with
  | some none => true
  | _ => false

/-- Two states the secondary thread and the readers cannot tell apart. -/
def Agree (a b : TransactionThread I) : Prop :=
  a.currentImage = b.currentImage ∧ a.worker = b.worker ∧ a.trace = b.trace

/-! ## A concrete image type

Images named by the Qt calls that produced them; used to evaluate the
definitions on concrete inputs. -/

/-- An image given by its history: a default `QImage`, an image loaded by the
caller, or the result of one of the three Qt calls on an image. -/
inductive Picture where
  | null
  | loaded (n : Nat)
  | mirrored (horizontal vertical : Bool) (p : Picture)
  | scaled (size : QSize) (p : Picture)
  | converted (format : Format) (p : Picture)
  deriving DecidableEq, Repr

/-- The Qt calls on `Picture`; no translator is installed, so `tr` returns
its argument. -/
def Picture.qt : QImageApi Picture :=
  { null := Picture.null
    mirrored := Picture.mirrored
    scaled := Picture.scaled
    convertToFormat := Picture.converted
    tr := fun text => text }

/-- `QImage::isNull`. -/
def Picture.isNull : Picture → Bool
  | Picture.null => true
  | _ => false

/-- `FlipTransaction(Qt::Horizontal)` on pictures. -/
def flipH : Transaction Picture := FlipTransaction Picture.qt Orientation.Horizontal

/-- `ResizeTransaction(QSize(100, 100))` on pictures. -/
def resize100 : Transaction Picture := ResizeTransaction Picture.qt ⟨100, 100⟩

/-- A subclass of `Transaction` whose `apply` cannot produce an image and
returns `QImage()`. -/
def failing : Transaction Picture :=
  { apply := fun _ => Picture.null
    message := "Failing..." }

/-! ## Basic facts about schedules and traces -/

@[simp]
theorem endTransaction_eq : (EndTransaction : TransactionPtr I) = none := rfl

theorem exec_nil (s : TransactionThread I) : exec s [] = s := rfl

theorem exec_cons (s : TransactionThread I) (a : Action I) (sched : List (Action I)) :
    exec s (a :: sched) = exec (step s a) sched := rfl

theorem exec_append (s : TransactionThread I) (xs ys : List (Action I)) :
    exec s (xs ++ ys) = exec (exec s xs) ys := by
  simp [exec, List.foldl_append]

theorem exec_snoc (s : TransactionThread I) (xs : List (Action I)) (a : Action I) :
    exec s (xs ++ [a]) = step (exec s xs) a := by
  simp [exec_append, exec_cons, exec_nil]

theorem notifications_append (xs ys : List (Event I)) :
    notifications (xs ++ ys) = notifications xs ++ notifications ys := by
  simp [notifications, List.filterMap_append]

theorem applies_append (xs ys : List (Event I)) :
    applies (xs ++ ys) = applies xs ++ applies ys := by
  simp [applies, List.filterMap_append]

theorem foldApply_append (xs ys : List (Transaction I)) (a : I) :
    foldApply (xs ++ ys) a = foldApply ys (foldApply xs a) := by
  simp [foldApply, List.foldl_append]

theorem submitted_cons (a : Action I) (sched : List (Action I)) :
    submitted (a :: sched) = (a.submits).toList ++ submitted sched := by
  cases h : a.submits <;> simp [submitted, List.filterMap_cons, h]

/-! ## Executions without shutdown -/

theorem queued_of_objects (q : List (TransactionPtr I)) (t : Transaction I) :
    (q ++ [some t]).filterMap id = q.filterMap id ++ [t] := by
  simp [List.filterMap_append]

theorem plainInv_step (s : TransactionThread I) (a : Action I) (h : PlainInv s)
    (ha : a.plain = true) : PlainInv (step s a) := by
  obtain ⟨img, q, w, d, tr⟩ := s
  obtain ⟨h1, h2, h3, h4, h5⟩ := h
  cases a with
  | addTransaction p =>
    cases p with
    | none => simp [Action.plain] at ha
    | some t =>
      refine ⟨?_, ?_, ?_, ?_, ?_⟩ <;>
        cases w <;> simp_all [step, TransactionThread.addTransaction, wakeOne]
      all_goals
        intro p hp
        rcases hp with hp | hp
        · exact h1 p hp
        · simp [hp]
  | setImage _ => simp [Action.plain] at ha
  | destroy => simp [Action.plain] at ha
  | spuriousWakeup => simp [Action.plain] at ha
  | run =>
    cases w with
    | top =>
      cases q with
      | nil => exact ⟨by simp [step, TransactionThread.run], by simp [step, TransactionThread.run],
          by simp [step, TransactionThread.run], by simp [step, TransactionThread.run],
          by simp [step, TransactionThread.run]⟩
      | cons p rest =>
        cases p with
        | none => simp at h1
        | some t =>
          refine ⟨?_, ?_, ?_, ?_, ?_⟩ <;>
            simp_all [step, TransactionThread.run, TransactionThread.dequeue]
    | waiting => exact ⟨h1, h2, h3, h4, h5⟩
    | woken =>
      cases q with
      | nil => simp at h2
      | cons p rest =>
        cases p with
        | none => simp at h1
        | some t =>
          refine ⟨?_, ?_, ?_, ?_, ?_⟩ <;>
            simp_all [step, TransactionThread.run, TransactionThread.dequeue]
    | dequeued t old =>
      refine ⟨?_, ?_, ?_, ?_, ?_⟩ <;> simp_all [step, TransactionThread.run]
    | started t old =>
      refine ⟨?_, ?_, ?_, ?_, ?_⟩ <;> simp_all [step, TransactionThread.run]
    | applied new =>
      refine ⟨?_, ?_, ?_, ?_, ?_⟩ <;> simp_all [step, TransactionThread.run]
    | finished => simp at h4
    | fault => simp at h5

theorem target_step (s : TransactionThread I) (a : Action I) (h : PlainInv s)
    (ha : a.plain = true) :
    foldApply (queued (step s a)) (pendingImage (step s a))
      = foldApply (a.submits).toList (foldApply (queued s) (pendingImage s)) := by
  obtain ⟨img, q, w, d, tr⟩ := s
  obtain ⟨h1, h2, h3, h4, h5⟩ := h
  cases a with
  | addTransaction p =>
    cases p with
    | none => simp [Action.plain] at ha
    | some t =>
      cases w <;>
        simp [step, TransactionThread.addTransaction, wakeOne, queued, pendingImage,
          Action.submits, List.filterMap_append, foldApply, List.foldl_append]
  | setImage _ => simp [Action.plain] at ha
  | destroy => simp [Action.plain] at ha
  | spuriousWakeup => simp [Action.plain] at ha
  | run =>
    cases w with
    | top =>
      cases q with
      | nil => simp [step, TransactionThread.run, queued, pendingImage, Action.submits, foldApply]
      | cons p rest =>
        cases p with
        | none => simp at h1
        | some t =>
          simp [step, TransactionThread.run, TransactionThread.dequeue, queued, pendingImage,
            Action.submits, foldApply]
    | waiting => simp [step, TransactionThread.run, Action.submits, foldApply]
    | woken =>
      cases q with
      | nil => simp at h2
      | cons p rest =>
        cases p with
        | none => simp at h1
        | some t =>
          simp [step, TransactionThread.run, TransactionThread.dequeue, queued, pendingImage,
            Action.submits, foldApply]
    | dequeued t old =>
      simp [step, TransactionThread.run, queued, pendingImage, Action.submits, foldApply]
    | started t old =>
      simp [step, TransactionThread.run, queued, pendingImage, Action.submits, foldApply]
    | applied new =>
      simp [step, TransactionThread.run, queued, pendingImage, Action.submits, foldApply]
    | finished => simp at h4
    | fault => simp at h5

theorem unapplied_step (s : TransactionThread I) (a : Action I) (h : PlainInv s)
    (ha : a.plain = true) :
    applies (step s a).trace ++ unapplied (step s a)
      = applies s.trace ++ unapplied s ++ (a.submits).toList := by
  obtain ⟨img, q, w, d, tr⟩ := s
  obtain ⟨h1, h2, h3, h4, h5⟩ := h
  cases a with
  | addTransaction p =>
    cases p with
    | none => simp [Action.plain] at ha
    | some t =>
      cases w <;>
        simp [step, TransactionThread.addTransaction, wakeOne, queued, unapplied,
          Action.submits, List.filterMap_append]
  | setImage _ => simp [Action.plain] at ha
  | destroy => simp [Action.plain] at ha
  | spuriousWakeup => simp [Action.plain] at ha
  | run =>
    cases w with
    | top =>
      cases q with
      | nil =>
        simp [step, TransactionThread.run, queued, unapplied, Action.submits, applies,
          Event.applied, List.filterMap_append]
      | cons p rest =>
        cases p with
        | none => simp at h1
        | some t =>
          simp [step, TransactionThread.run, TransactionThread.dequeue, queued, unapplied,
            Action.submits, applies, Event.applied, List.filterMap_append]
    | waiting => simp [step, TransactionThread.run, Action.submits]
    | woken =>
      cases q with
      | nil => simp at h2
      | cons p rest =>
        cases p with
        | none => simp at h1
        | some t =>
          simp [step, TransactionThread.run, TransactionThread.dequeue, queued, unapplied,
            Action.submits, applies, Event.applied, List.filterMap_append]
    | dequeued t old =>
      simp [step, TransactionThread.run, queued, unapplied, Action.submits, applies,
        Event.applied, List.filterMap_append]
    | started t old =>
      simp [step, TransactionThread.run, queued, unapplied, Action.submits, applies,
        Event.applied, List.filterMap_append]
    | applied new =>
      cases q <;>
        simp [step, TransactionThread.run, queued, unapplied, Action.submits, applies,
          Event.applied, List.filterMap_append]
    | finished => simp at h4
    | fault => simp at h5

/-- Along an execution without shutdown the invariant is kept, the image the
queue is going to produce is the fold over what was submitted, and the calls
of `apply` made so far plus the transactions still to apply are the
submitted ones, in submission order. -/
theorem plain_exec (sched : List (Action I)) :
    ∀ s : TransactionThread I, PlainInv s → (∀ a ∈ sched, a.plain = true) →
      PlainInv (exec s sched)
      ∧ foldApply (queued (exec s sched)) (pendingImage (exec s sched))
          = foldApply (submitted sched) (foldApply (queued s) (pendingImage s))
      ∧ applies (exec s sched).trace ++ unapplied (exec s sched)
          = applies s.trace ++ unapplied s ++ submitted sched := by
  induction sched with
  | nil => intro s h _; simp [exec_nil, submitted, foldApply, h]
  | cons a sched ih =>
    intro s h hp
    have ha : a.plain = true := hp a (List.mem_cons_self _ _)
    have hrest : ∀ b ∈ sched, b.plain = true := fun b hb => hp b (List.mem_cons_of_mem _ hb)
    obtain ⟨i1, i2, i3⟩ := ih (step s a) (plainInv_step s a h ha) hrest
    refine ⟨by simpa [exec_cons] using i1, ?_, ?_⟩
    · rw [exec_cons, i2, target_step s a h ha, submitted_cons, foldApply_append]
    · rw [exec_cons, i3, unapplied_step s a h ha, submitted_cons]
      simp [List.append_assoc]

theorem quiescent_iff (s : TransactionThread I) :
    quiescent s = true ↔
      s.transactions = [] ∧ (s.worker = Worker.top ∨ s.worker = Worker.waiting) := by
  obtain ⟨img, q, w, d, tr⟩ := s
  cases w <;> cases q <;> simp [quiescent, Worker.idle]

theorem quiescent_target (s : TransactionThread I) (h : quiescent s = true) :
    queued s = [] ∧ unapplied s = [] ∧ pendingImage s = s.currentImage := by
  obtain ⟨img, q, w, d, tr⟩ := s
  obtain ⟨hq, hw⟩ := (quiescent_iff _).1 h
  simp only at hq hw
  subst hq
  rcases hw with hw | hw <;> subst hw <;> simp [queued, unapplied, pendingImage]

theorem fuel_run (s : TransactionThread I) (h : PlainInv s) :
    fuel s.run ≤ fuel s - 1 := by
  obtain ⟨img, q, w, d, tr⟩ := s
  obtain ⟨h1, h2, h3, h4, h5⟩ := h
  cases w with
  | top =>
    cases q with
    | nil => simp [TransactionThread.run, fuel]
    | cons p rest =>
      cases p with
      | none => simp at h1
      | some t =>
        simp [TransactionThread.run, TransactionThread.dequeue, fuel]
        omega
  | waiting =>
    have : q = [] := by simpa using h3
    subst this
    simp [TransactionThread.run, fuel]
  | woken =>
    cases q with
    | nil => simp at h2
    | cons p rest =>
      cases p with
      | none => simp at h1
      | some t =>
        simp [TransactionThread.run, TransactionThread.dequeue, fuel]
        omega
  | dequeued t old => simp [TransactionThread.run, fuel]
  | started t old => simp [TransactionThread.run, fuel]
  | applied new => simp [TransactionThread.run, fuel]
  | finished => simp at h4
  | fault => simp at h5

theorem quiescent_of_fuel_zero (s : TransactionThread I) (h : PlainInv s) (hf : fuel s = 0) :
    quiescent s = true := by
  obtain ⟨img, q, w, d, tr⟩ := s
  obtain ⟨h1, h2, h3, h4, h5⟩ := h
  cases w <;> cases q <;> simp_all [fuel, quiescent, Worker.idle]

/-- Left alone, the secondary thread empties the queue: `n` steps are enough
as soon as `n` is at least `fuel s`. -/
theorem run_drains (n : Nat) :
    ∀ s : TransactionThread I, PlainInv s → fuel s ≤ n →
      quiescent (exec s (List.replicate n Action.run)) = true := by
  induction n with
  | zero =>
    intro s h hf
    simpa [exec_nil] using quiescent_of_fuel_zero s h (by omega)
  | succ n ih =>
    intro s h hf
    rw [List.replicate_succ, exec_cons]
    have h1 : PlainInv (step s Action.run) := plainInv_step s Action.run h rfl
    have h2 := fuel_run s h
    exact ih (step s Action.run) h1 (by simp only [step]; omega)

theorem plainInv_setImage (s : TransactionThread I) (A0 : I) (hq : s.transactions = [])
    (hw : s.worker = Worker.top ∨ s.worker = Worker.waiting) : PlainInv (s.setImage A0) := by
  obtain ⟨img, q, w, d, tr⟩ := s
  simp only at hq hw
  subst hq
  rcases hw with hw | hw <;> subst hw <;>
    exact ⟨by simp [TransactionThread.setImage], by simp [TransactionThread.setImage],
      by simp [TransactionThread.setImage], by simp [TransactionThread.setImage],
      by simp [TransactionThread.setImage]⟩

/-- The result of an execution without shutdown that has processed
everything: the image is the fold over the submitted transactions and the
calls of `apply` are the submitted transactions in order. -/
theorem plain_result (s : TransactionThread I) (A0 : I) (sched : List (Action I))
    (hq : s.transactions = [])
    (hw : s.worker = Worker.top ∨ s.worker = Worker.waiting)
    (hplain : ∀ a ∈ sched, a.plain = true)
    (hdone : quiescent (exec (s.setImage A0) sched) = true) :
    (exec (s.setImage A0) sched).image = foldApply (submitted sched) A0
    ∧ applies (exec (s.setImage A0) sched).trace = applies s.trace ++ submitted sched := by
  have h0 : PlainInv (s.setImage A0) := plainInv_setImage s A0 hq hw
  obtain ⟨_, i2, i3⟩ := plain_exec sched (s.setImage A0) h0 hplain
  have hstart : queued (s.setImage A0) = [] ∧ unapplied (s.setImage A0) = []
      ∧ pendingImage (s.setImage A0) = A0 := by
    have hqs : quiescent (s.setImage A0) = true := by
      rw [quiescent_iff]
      exact ⟨hq, hw⟩
    simpa [TransactionThread.setImage] using quiescent_target (s.setImage A0) hqs
  obtain ⟨e1, e2, e3⟩ := quiescent_target _ hdone
  rw [e1, e3] at i2
  rw [e2] at i3
  rw [hstart.1, hstart.2.2] at i2
  rw [hstart.2.1] at i3
  refine ⟨?_, ?_⟩
  · simpa [TransactionThread.image, foldApply] using i2
  · simpa [TransactionThread.setImage] using i3

/-- C1 (FIFO fold).  Start from an object with an empty queue and the
secondary thread between iterations, and set the image to `A0`.  Take any
schedule made of `addTransaction` calls with transaction objects and of steps
of `run()`, in any interleaving.  If at its end everything has been processed
(empty queue, nothing in flight), then `image()` is the left fold of `apply`
over `A0` in submission order, and `apply` has been called on exactly the
submitted transactions, once each, in submission order.  Such an end is
always reached: after any such schedule, `fuel` more steps of `run()` empty
the queue. -/
theorem fifo_fold (s : TransactionThread I) (A0 : I) (sched : List (Action I))
    (hq : s.transactions = [])
    (hw : s.worker = Worker.top ∨ s.worker = Worker.waiting)
    (hplain : ∀ a ∈ sched, a.plain = true) :
    (quiescent (exec (s.setImage A0) sched) = true →
      (exec (s.setImage A0) sched).image = foldApply (submitted sched) A0
      ∧ applies (exec (s.setImage A0) sched).trace = applies s.trace ++ submitted sched)
    ∧ quiescent (exec (s.setImage A0)
        (sched ++ List.replicate (fuel (exec (s.setImage A0) sched)) Action.run)) = true := by
  refine ⟨plain_result s A0 sched hq hw hplain, ?_⟩
  have h0 : PlainInv (s.setImage A0) := plainInv_setImage s A0 hq hw
  rw [exec_append]
  exact run_drains _ _ (plain_exec sched (s.setImage A0) h0 hplain).1 (le_refl _)

/-- C1 at a concrete input: a flip and a resize submitted while the secondary
thread is running. -/
theorem fifo_fold_witness :
    quiescent (exec ((TransactionThread.init Picture.qt).setImage (Picture.loaded 0))
        [Action.addTransaction (some flipH), Action.run, Action.run,
          Action.addTransaction (some resize100), Action.run, Action.run, Action.run,
          Action.run, Action.run, Action.run]) = true
    ∧ (exec ((TransactionThread.init Picture.qt).setImage (Picture.loaded 0))
        [Action.addTransaction (some flipH), Action.run, Action.run,
          Action.addTransaction (some resize100), Action.run, Action.run, Action.run,
          Action.run, Action.run, Action.run]).image
        = Picture.scaled ⟨100, 100⟩ (Picture.mirrored true false (Picture.loaded 0)) :=
  ⟨rfl, ((fifo_fold (TransactionThread.init Picture.qt) (Picture.loaded 0)
      [Action.addTransaction (some flipH), Action.run, Action.run,
        Action.addTransaction (some resize100), Action.run, Action.run, Action.run,
        Action.run, Action.run, Action.run] rfl (Or.inl rfl) (by decide)).1 rfl).1⟩

/-! ## Executions after the destructor -/

theorem deleteAll_eq_nil (q : List (TransactionPtr I)) : deleteAll q = [] := by
  induction q with
  | nil => rfl
  | cons p rest ih => simpa [deleteAll] using ih

theorem destructor_eq (s : TransactionThread I) :
    s.destructor = { s with
      transactions := [EndTransaction], worker := wakeOne s.worker, destroyed := true } := by
  simp [TransactionThread.destructor, deleteAll_eq_nil]

theorem shutInv_destructor (s : TransactionThread I) : ShutInv s.destructor := by
  obtain ⟨img, q, w, d, tr⟩ := s
  rw [destructor_eq]
  cases w <;> simp [ShutInv, wakeOne, EndTransaction]

theorem shutInv_step (s : TransactionThread I) (a : Action I) (h : ShutInv s) :
    ShutInv (step s a) := by
  obtain ⟨img, q, w, d, tr⟩ := s
  obtain ⟨hd, hw⟩ := h
  simp only at hd hw
  subst hd
  cases a with
  | addTransaction p =>
    cases w <;> cases q <;>
      simp_all [ShutInv, step, TransactionThread.addTransaction, wakeOne]
  | setImage x =>
    exact ⟨rfl, hw⟩
  | destroy => exact ⟨rfl, hw⟩
  | spuriousWakeup =>
    cases w <;> simp_all [ShutInv, step, wakeOne]
  | run =>
    cases w with
    | top =>
      rcases q with _ | ⟨p, rest⟩
      · simp at hw
      · cases p <;> simp_all [ShutInv, step, TransactionThread.run, TransactionThread.dequeue]
    | waiting => simp at hw
    | woken =>
      rcases q with _ | ⟨p, rest⟩
      · simp at hw
      · cases p <;> simp_all [ShutInv, step, TransactionThread.run, TransactionThread.dequeue]
    | dequeued t old => simp_all [ShutInv, step, TransactionThread.run]
    | started t old => simp_all [ShutInv, step, TransactionThread.run]
    | applied new => simp_all [ShutInv, step, TransactionThread.run]
    | finished => simp [ShutInv, step, TransactionThread.run]
    | fault => simp_all [ShutInv, step, TransactionThread.run]

theorem shutInv_exec (sched : List (Action I)) :
    ∀ s : TransactionThread I, ShutInv s → ShutInv (exec s sched) := by
  induction sched with
  | nil => intro s h; exact h
  | cons a sched ih => intro s h; exact ih _ (shutInv_step s a h)

theorem remaining_step (s : TransactionThread I) (a : Action I) (h : ShutInv s) :
    (step s a).trace ++ remaining (step s a).worker = s.trace ++ remaining s.worker := by
  obtain ⟨img, q, w, d, tr⟩ := s
  obtain ⟨hd, hw⟩ := h
  simp only at hd hw
  subst hd
  cases a with
  | addTransaction p =>
    cases w <;> simp_all [step, TransactionThread.addTransaction, wakeOne, remaining]
  | setImage x => rfl
  | destroy => rfl
  | spuriousWakeup =>
    cases w <;> simp_all [step, wakeOne, remaining]
  | run =>
    cases w with
    | top =>
      rcases q with _ | ⟨p, rest⟩
      · simp at hw
      · cases p <;>
          simp_all [step, TransactionThread.run, TransactionThread.dequeue, remaining]
    | waiting => simp at hw
    | woken =>
      rcases q with _ | ⟨p, rest⟩
      · simp at hw
      · cases p <;>
          simp_all [step, TransactionThread.run, TransactionThread.dequeue, remaining]
    | dequeued t old => simp [step, TransactionThread.run, remaining]
    | started t old => simp [step, TransactionThread.run, remaining]
    | applied new =>
      rcases q with _ | ⟨p, rest⟩
      · simp at hw
      · simp [step, TransactionThread.run, remaining]
    | finished => simp [step, TransactionThread.run]
    | fault => simp [step, TransactionThread.run]

theorem remaining_exec (sched : List (Action I)) :
    ∀ s : TransactionThread I, ShutInv s →
      (exec s sched).trace ++ remaining (exec s sched).worker
        = s.trace ++ remaining s.worker := by
  induction sched with
  | nil => intro s _; rfl
  | cons a sched ih =>
    intro s h
    rw [exec_cons, ih _ (shutInv_step s a h), remaining_step s a h]

theorem trace_step (s : TransactionThread I) (a : Action I) :
    ∃ evs, (step s a).trace = s.trace ++ evs := by
  obtain ⟨img, q, w, d, tr⟩ := s
  cases a with
  | addTransaction p => exact ⟨[], by simp [step, TransactionThread.addTransaction]⟩
  | setImage x => exact ⟨[], by simp [step, TransactionThread.setImage]⟩
  | destroy =>
    refine ⟨[], ?_⟩
    cases d <;> simp [step, TransactionThread.destructor]
  | spuriousWakeup => exact ⟨[], by simp [step]⟩
  | run =>
    cases w with
    | top =>
      rcases q with _ | ⟨p, rest⟩
      · exact ⟨[Event.lock, Event.unlock], by simp [step, TransactionThread.run]⟩
      · cases p
        · exact ⟨[Event.lock, Event.unlock],
            by simp [step, TransactionThread.run, TransactionThread.dequeue]⟩
        · exact ⟨[Event.lock, Event.unlock],
            by simp [step, TransactionThread.run, TransactionThread.dequeue]⟩
    | waiting => exact ⟨[], by simp [step, TransactionThread.run]⟩
    | woken =>
      rcases q with _ | ⟨p, rest⟩
      · exact ⟨[Event.lock], by simp [step, TransactionThread.run, TransactionThread.dequeue]⟩
      · cases p
        · exact ⟨[Event.lock, Event.unlock],
            by simp [step, TransactionThread.run, TransactionThread.dequeue]⟩
        · exact ⟨[Event.lock, Event.unlock],
            by simp [step, TransactionThread.run, TransactionThread.dequeue]⟩
    | dequeued t old =>
      exact ⟨[Event.transactionStarted t.message], by simp [step, TransactionThread.run]⟩
    | started t old =>
      exact ⟨[Event.apply t old], by simp [step, TransactionThread.run]⟩
    | applied new =>
      exact ⟨[Event.lock, Event.store new]
        ++ (if q.isEmpty then [Event.allTransactionsDone] else []) ++ [Event.unlock],
        by simp [step, TransactionThread.run]⟩
    | finished => exact ⟨[], by simp [step, TransactionThread.run]⟩
    | fault => exact ⟨[], by simp [step, TransactionThread.run]⟩

theorem trace_exec (sched : List (Action I)) :
    ∀ s : TransactionThread I, ∃ evs, (exec s sched).trace = s.trace ++ evs := by
  induction sched with
  | nil => intro s; exact ⟨[], by simp [exec_nil]⟩
  | cons a sched ih =>
    intro s
    obtain ⟨e1, h1⟩ := trace_step s a
    obtain ⟨e2, h2⟩ := ih (step s a)
    exact ⟨e1 ++ e2, by rw [exec_cons, h2, h1, List.append_assoc]⟩

theorem image_step (s : TransactionThread I) (a : Action I) (h : ShutInv s)
    (hw : s.worker.inFlight = false) (ha : a.setsImage = false) :
    (step s a).currentImage = s.currentImage ∧ (step s a).worker.inFlight = false := by
  obtain ⟨img, q, w, d, tr⟩ := s
  obtain ⟨hd, hs⟩ := h
  simp only at hd hs hw
  subst hd
  cases a with
  | addTransaction p =>
    cases w <;> simp_all [step, TransactionThread.addTransaction, wakeOne, Worker.inFlight]
  | setImage x => simp [Action.setsImage] at ha
  | destroy => exact ⟨rfl, hw⟩
  | spuriousWakeup =>
    cases w <;> simp_all [step, wakeOne, Worker.inFlight]
  | run =>
    cases w with
    | top =>
      rcases q with _ | ⟨p, rest⟩
      · simp at hs
      · cases p <;>
          simp_all [step, TransactionThread.run, TransactionThread.dequeue, Worker.inFlight]
    | waiting => simp at hs
    | woken =>
      rcases q with _ | ⟨p, rest⟩
      · simp at hs
      · cases p <;>
          simp_all [step, TransactionThread.run, TransactionThread.dequeue, Worker.inFlight]
    | dequeued t old => simp [Worker.inFlight] at hw
    | started t old => simp [Worker.inFlight] at hw
    | applied new => simp [Worker.inFlight] at hw
    | finished => simp [step, TransactionThread.run, Worker.inFlight]
    | fault => simp [step, TransactionThread.run, Worker.inFlight]

theorem image_exec (sched : List (Action I)) :
    ∀ s : TransactionThread I, ShutInv s → s.worker.inFlight = false →
      (∀ a ∈ sched, a.setsImage = false) →
      (exec s sched).currentImage = s.currentImage := by
  induction sched with
  | nil => intro s _ _ _; rfl
  | cons a sched ih =>
    intro s h hw hs
    obtain ⟨e1, e2⟩ := image_step s a h hw (hs a (List.mem_cons_self _ _))
    rw [exec_cons, ih _ (shutInv_step s a h) e2
      (fun b hb => hs b (List.mem_cons_of_mem _ hb)), e1]

theorem remaining_wakeOne (w : Worker I) : remaining (wakeOne w) = remaining w := by
  cases w <;> rfl

theorem remaining_quiet (w : Worker I) (h : w.inFlight = false) :
    notifications (remaining w) = [] ∧ applies (remaining w) = [] := by
  cases w <;> simp [Worker.inFlight] at h <;>
    simp [remaining, notifications, applies, Event.notification, Event.applied]

theorem events_after_destructor (s : TransactionThread I) (sched : List (Action I)) :
    ∃ evs, (exec s.destructor sched).trace = s.trace ++ evs
      ∧ evs ++ remaining (exec s.destructor sched).worker = remaining s.worker := by
  obtain ⟨evs, h1⟩ := trace_exec sched s.destructor
  have h2 := remaining_exec sched s.destructor (shutInv_destructor s)
  have h3 : s.destructor.trace = s.trace := rfl
  have h4 : s.destructor.worker = wakeOne s.worker := rfl
  rw [h1, h3, h4, remaining_wakeOne, List.append_assoc] at h2
  exact ⟨evs, by rw [h1, h3], List.append_cancel_left h2⟩

/-- C2 (shutdown discards pending work).  Whatever the queue holds when the
destructor takes the lock, its critical section leaves exactly the sentinel
in the queue, and the state it leaves does not depend on what was queued
(nor on a transaction enqueued just before).
In every execution that follows, the events of the secondary thread are an
initial part of `remaining`: the rest of the iteration already in flight
(none if the thread was between iterations) and the critical section that
takes the sentinel.  So with no iteration in flight no `transactionStarted`
is emitted and `apply` is not called any more; and a transaction enqueued and
destroyed before the thread took it leaves `image()` as it was (as long as
nobody calls `setImage`). -/
theorem shutdown_discards (s : TransactionThread I) (sched : List (Action I)) :
    s.destructor.transactions = [EndTransaction]
    ∧ (∀ q, ({ s with transactions := q } : TransactionThread I).destructor = s.destructor)
    ∧ (∀ p, (s.addTransaction p).destructor = s.destructor)
    ∧ (∃ evs, (exec s.destructor sched).trace = s.trace ++ evs
        ∧ evs <+: remaining s.worker)
    ∧ (s.worker.inFlight = false →
        notifications (exec s.destructor sched).trace = notifications s.trace
        ∧ applies (exec s.destructor sched).trace = applies s.trace)
    ∧ (s.worker.inFlight = false → (∀ a ∈ sched, a.setsImage = false) →
        ∀ p, (exec (s.addTransaction p).destructor sched).image = s.image) := by
  have hadd : ∀ p, (s.addTransaction p).destructor = s.destructor := by
    intro p
    obtain ⟨img, q, w, d, tr⟩ := s
    cases w <;> simp [destructor_eq, TransactionThread.addTransaction, wakeOne]
  refine ⟨?_, ?_, hadd, ?_, ?_, ?_⟩
  · simp [destructor_eq]
  · intro q
    simp [destructor_eq]
  · obtain ⟨evs, h1, h2⟩ := events_after_destructor s sched
    exact ⟨evs, h1, ⟨_, h2⟩⟩
  · intro hw
    obtain ⟨evs, h1, h2⟩ := events_after_destructor s sched
    obtain ⟨q1, q2⟩ := remaining_quiet s.worker hw
    rw [← h2, notifications_append] at q1
    rw [← h2, applies_append] at q2
    rw [h1, notifications_append, applies_append]
    simp [(List.append_eq_nil.1 q1).1, (List.append_eq_nil.1 q2).1]
  · intro hw hs p
    have h1 := hadd p
    have h2 : s.destructor.worker.inFlight = false := by
      obtain ⟨img, q, w, d, tr⟩ := s
      cases w <;> simp_all [destructor_eq, wakeOne, Worker.inFlight]
    rw [h1]
    exact image_exec sched s.destructor (shutInv_destructor s) h2 hs

/-- C2 at a concrete input: a flip is enqueued and the object destroyed
before the secondary thread has taken it; the thread then runs to its end. -/
theorem shutdown_discards_witness :
    (TransactionThread.init Picture.qt).worker.inFlight = false
    ∧ (∀ a ∈ ([Action.run, Action.run, Action.run] : List (Action Picture)),
        a.setsImage = false)
    ∧ (exec (((TransactionThread.init Picture.qt).setImage (Picture.loaded 0)).addTransaction
          (some flipH)).destructor [Action.run, Action.run, Action.run]).image
        = Picture.loaded 0 :=
  ⟨rfl, by decide,
    (shutdown_discards ((TransactionThread.init Picture.qt).setImage (Picture.loaded 0))
      [Action.run, Action.run, Action.run]).2.2.2.2.2 rfl (by decide) (some flipH)⟩

/-! ## Order of the events of `run()` -/

theorem orderFrom_append [DecidableEq I] (acc : Option (Phase I)) (xs ys : List (Event I)) :
    orderFrom acc (xs ++ ys) = orderFrom (orderFrom acc xs) ys := by
  simp [orderFrom, List.foldl_append]

theorem order_append [DecidableEq I] (xs ys : List (Event I)) :
    order (xs ++ ys) = orderFrom (order xs) ys :=
  orderFrom_append _ xs ys

theorem order_step [DecidableEq I] (s : TransactionThread I) (a : Action I) (ph : Phase I)
    (h1 : order s.trace = some ph) (h2 : phaseOf s.worker ph) :
    ∃ ph1, order (step s a).trace = some ph1 ∧ phaseOf (step s a).worker ph1 := by
  obtain ⟨img, q, w, d, tr⟩ := s
  simp only at h1 h2
  cases a with
  | addTransaction p =>
    refine ⟨ph, h1, ?_⟩
    cases w <;> simpa [step, TransactionThread.addTransaction, wakeOne, phaseOf] using h2
  | setImage x => exact ⟨ph, h1, h2⟩
  | destroy =>
    refine ⟨ph, ?_, ?_⟩
    · cases d <;> simpa [step, TransactionThread.destructor] using h1
    · cases d <;> cases w <;>
        simpa [step, TransactionThread.destructor, wakeOne, phaseOf] using h2
  | spuriousWakeup =>
    refine ⟨ph, h1, ?_⟩
    cases w <;> simpa [step, wakeOne, phaseOf] using h2
  | run =>
    cases w with
    | top =>
      refine ⟨ph, ?_, ?_⟩
      · rcases q with _ | ⟨p, rest⟩
        · simp [step, TransactionThread.run, order_append, h1, orderFrom, orderStep]
        · cases p <;>
            simp [step, TransactionThread.run, TransactionThread.dequeue, order_append, h1,
              orderFrom, orderStep]
      · rcases q with _ | ⟨p, rest⟩
        · simpa [step, TransactionThread.run, phaseOf] using h2
        · cases p <;>
            simpa [step, TransactionThread.run, TransactionThread.dequeue, phaseOf] using h2
    | waiting => exact ⟨ph, h1, h2⟩
    | woken =>
      refine ⟨ph, ?_, ?_⟩
      · rcases q with _ | ⟨p, rest⟩
        · simp [step, TransactionThread.run, TransactionThread.dequeue, order_append, h1,
            orderFrom, orderStep]
        · cases p <;>
            simp [step, TransactionThread.run, TransactionThread.dequeue, order_append, h1,
              orderFrom, orderStep]
      · rcases q with _ | ⟨p, rest⟩
        · simpa [step, TransactionThread.run, TransactionThread.dequeue, phaseOf] using h2
        · cases p <;>
            simpa [step, TransactionThread.run, TransactionThread.dequeue, phaseOf] using h2
    | dequeued t old =>
      refine ⟨Phase.started t.message, ?_, by simp [step, TransactionThread.run, phaseOf]⟩
      rcases h2 with h2 | ⟨r, h2⟩ <;> subst h2 <;>
        simp [step, TransactionThread.run, order_append, h1, orderFrom, orderStep]
    | started t old =>
      refine ⟨Phase.applied (t.apply old), ?_, by simp [step, TransactionThread.run, phaseOf]⟩
      simp only [phaseOf] at h2
      subst h2
      simp [step, TransactionThread.run, order_append, h1, orderFrom, orderStep]
    | applied new =>
      simp only [phaseOf] at h2
      subst h2
      rcases q with _ | ⟨p, rest⟩
      · exact ⟨Phase.idle,
          by simp [step, TransactionThread.run, order_append, h1, orderFrom, orderStep],
          by simp [step, TransactionThread.run, phaseOf]⟩
      · exact ⟨Phase.stored new,
          by simp [step, TransactionThread.run, order_append, h1, orderFrom, orderStep],
          by simp [step, TransactionThread.run, phaseOf]⟩
    | finished => exact ⟨ph, h1, h2⟩
    | fault => exact ⟨ph, h1, h2⟩

theorem order_exec [DecidableEq I] (sched : List (Action I)) :
    ∀ (s : TransactionThread I) (ph : Phase I), order s.trace = some ph →
      phaseOf s.worker ph →
      ∃ ph1, order (exec s sched).trace = some ph1 ∧ phaseOf (exec s sched).worker ph1 := by
  induction sched with
  | nil => intro s ph h1 h2; exact ⟨ph, h1, h2⟩
  | cons a sched ih =>
    intro s ph h1 h2
    obtain ⟨ph1, e1, e2⟩ := order_step s a ph h1 h2
    exact ih (step s a) ph1 e1 e2

theorem done_step (s : TransactionThread I) (a : Action I) (evs : List (Event I))
    (h : (step s a).trace = s.trace ++ evs) (hd : Event.allTransactionsDone ∈ evs) :
    ∃ new, s.worker = Worker.applied new ∧ s.transactions = []
      ∧ evs = [Event.lock, Event.store new, Event.allTransactionsDone, Event.unlock]
      ∧ (step s a).image = new := by
  obtain ⟨img, q, w, d, tr⟩ := s
  cases a with
  | addTransaction p =>
    simp [step, TransactionThread.addTransaction] at h
    subst h
    simp at hd
  | setImage x =>
    simp [step, TransactionThread.setImage] at h
    subst h
    simp at hd
  | destroy =>
    cases d <;> simp [step, TransactionThread.destructor] at h <;> subst h <;> simp at hd
  | spuriousWakeup =>
    simp [step] at h
    subst h
    simp at hd
  | run =>
    cases w with
    | top =>
      rcases q with _ | ⟨p, rest⟩
      · simp [step, TransactionThread.run] at h
        subst h
        simp at hd
      · cases p <;> simp [step, TransactionThread.run, TransactionThread.dequeue] at h <;>
          subst h <;> simp at hd
    | waiting =>
      simp [step, TransactionThread.run] at h
      subst h
      simp at hd
    | woken =>
      rcases q with _ | ⟨p, rest⟩
      · simp [step, TransactionThread.run, TransactionThread.dequeue] at h
        subst h
        simp at hd
      · cases p <;> simp [step, TransactionThread.run, TransactionThread.dequeue] at h <;>
          subst h <;> simp at hd
    | dequeued t old =>
      simp [step, TransactionThread.run] at h
      subst h
      simp at hd
    | started t old =>
      simp [step, TransactionThread.run] at h
      subst h
      simp at hd
    | applied new =>
      rcases q with _ | ⟨p, rest⟩
      · simp [step, TransactionThread.run] at h
        subst h
        exact ⟨new, rfl, rfl, rfl, rfl⟩
      · simp [step, TransactionThread.run] at h
        subst h
        simp at hd
    | finished =>
      simp [step, TransactionThread.run] at h
      subst h
      simp at hd
    | fault =>
      simp [step, TransactionThread.run] at h
      subst h
      simp at hd

/-- C3 (notification ordering).  In every execution from the constructed
object, with any callers and any interleaving, the trace of the secondary
thread passes the order check: each `transactionStarted` carries the message
of the transaction that `apply` is called on next, the store that follows
writes what that call returned, the next `transactionStarted` comes only
after that store, and `allTransactionsDone` comes only right after a store.
Moreover a step that emits `allTransactionsDone` is the second critical
section of `run()` with the queue observed empty: it has just stored the
result, and `image()` returns that result when the step is over. -/
theorem notification_order [DecidableEq I] (qt : QImageApi I) (sched : List (Action I)) :
    (∃ ph, order (exec (TransactionThread.init qt) sched).trace = some ph
      ∧ phaseOf (exec (TransactionThread.init qt) sched).worker ph)
    ∧ ∀ (a : Action I) (evs : List (Event I)),
        (step (exec (TransactionThread.init qt) sched) a).trace
          = (exec (TransactionThread.init qt) sched).trace ++ evs →
        Event.allTransactionsDone ∈ evs →
        ∃ new, (exec (TransactionThread.init qt) sched).worker = Worker.applied new
          ∧ (exec (TransactionThread.init qt) sched).transactions = []
          ∧ evs = [Event.lock, Event.store new, Event.allTransactionsDone, Event.unlock]
          ∧ (step (exec (TransactionThread.init qt) sched) a).image = new := by
  refine ⟨?_, ?_⟩
  · exact order_exec sched (TransactionThread.init qt) Phase.idle rfl (Or.inl rfl)
  · intro a evs h hd
    exact done_step _ a evs h hd

/-- C3 at a concrete input: the step that ends the iteration of a flip with
an empty queue. -/
theorem notification_order_witness :
    Event.allTransactionsDone ∈
      [Event.lock, Event.store (Picture.mirrored true false Picture.null),
        Event.allTransactionsDone, Event.unlock]
    ∧ ∃ new,
      (exec (TransactionThread.init Picture.qt)
        [Action.addTransaction (some flipH), Action.run, Action.run, Action.run]).worker
          = Worker.applied new
      ∧ (exec (TransactionThread.init Picture.qt)
        [Action.addTransaction (some flipH), Action.run, Action.run, Action.run]).transactions
          = []
      ∧ [Event.lock, Event.store (Picture.mirrored true false Picture.null),
          Event.allTransactionsDone, Event.unlock]
          = [Event.lock, Event.store new, Event.allTransactionsDone, Event.unlock]
      ∧ (step (exec (TransactionThread.init Picture.qt)
          [Action.addTransaction (some flipH), Action.run, Action.run, Action.run])
          Action.run).image = new :=
  ⟨by simp,
    (notification_order Picture.qt
      [Action.addTransaction (some flipH), Action.run, Action.run, Action.run]).2
      Action.run
      [Event.lock, Event.store (Picture.mirrored true false Picture.null),
        Event.allTransactionsDone, Event.unlock]
      rfl (by simp)⟩

/-- The order check is not vacuous: a store before any call of `apply`, a
store of something else than what `apply` returned, and an
`allTransactionsDone` right after `transactionStarted` are all rejected. -/
theorem order_rejects :
    (order [Event.store (Picture.loaded 0)]).isNone = true
    ∧ (order [Event.transactionStarted flipH.message, Event.apply flipH (Picture.loaded 0),
        Event.store (Picture.loaded 0)]).isNone = true
    ∧ (order [Event.transactionStarted flipH.message,
        (Event.allTransactionsDone : Event Picture)]).isNone = true := by
  refine ⟨rfl, ?_, rfl⟩
  decide

/-! ## Lock discipline -/

theorem lockFrom_append (outside inside : Event I → Bool) (acc : Option Bool)
    (xs ys : List (Event I)) :
    lockFrom outside inside acc (xs ++ ys)
      = lockFrom outside inside (lockFrom outside inside acc xs) ys := by
  simp [lockFrom, List.foldl_append]

theorem lockCheck_append (outside inside : Event I → Bool) (xs ys : List (Event I)) :
    lockCheck outside inside (xs ++ ys)
      = lockFrom outside inside (lockCheck outside inside xs) ys :=
  lockFrom_append _ _ _ xs ys

theorem lock_step (s : TransactionThread I) (a : Action I)
    (h : lockCheck Event.isSlowWork Event.isGuarded s.trace = some s.worker.isFault) :
    lockCheck Event.isSlowWork Event.isGuarded (step s a).trace
      = some (step s a).worker.isFault := by
  obtain ⟨img, q, w, d, tr⟩ := s
  simp only at h
  cases a with
  | addTransaction p =>
    cases w <;> simpa [step, TransactionThread.addTransaction, wakeOne, Worker.isFault] using h
  | setImage x => exact h
  | destroy =>
    cases d <;> cases w <;>
      simpa [step, TransactionThread.destructor, wakeOne, Worker.isFault] using h
  | spuriousWakeup =>
    cases w <;> simpa [step, wakeOne, Worker.isFault] using h
  | run =>
    cases w with
    | top =>
      rcases q with _ | ⟨p, rest⟩
      · simp_all [step, TransactionThread.run, lockCheck_append, lockFrom, lockStep,
          Worker.isFault]
      · cases p <;>
          simp_all [step, TransactionThread.run, TransactionThread.dequeue, lockCheck_append,
            lockFrom, lockStep, Worker.isFault]
    | waiting => exact h
    | woken =>
      rcases q with _ | ⟨p, rest⟩
      · simp_all [step, TransactionThread.run, TransactionThread.dequeue, lockCheck_append,
          lockFrom, lockStep, Worker.isFault]
      · cases p <;>
          simp_all [step, TransactionThread.run, TransactionThread.dequeue, lockCheck_append,
            lockFrom, lockStep, Worker.isFault]
    | dequeued t old =>
      simp_all [step, TransactionThread.run, lockCheck_append, lockFrom, lockStep,
        Worker.isFault, Event.isSlowWork, Event.isGuarded]
    | started t old =>
      simp_all [step, TransactionThread.run, lockCheck_append, lockFrom, lockStep,
        Worker.isFault, Event.isSlowWork, Event.isGuarded]
    | applied new =>
      rcases q with _ | ⟨p, rest⟩ <;>
        simp_all [step, TransactionThread.run, lockCheck_append, lockFrom, lockStep,
          Worker.isFault, Event.isSlowWork, Event.isGuarded]
    | finished => exact h
    | fault => exact h

theorem lock_exec (sched : List (Action I)) :
    ∀ s : TransactionThread I,
      lockCheck Event.isSlowWork Event.isGuarded s.trace = some s.worker.isFault →
      lockCheck Event.isSlowWork Event.isGuarded (exec s sched).trace
        = some (exec s sched).worker.isFault := by
  induction sched with
  | nil => intro s h; exact h
  | cons a sched ih => intro s h; exact ih _ (lock_step s a h)

theorem stageFrom_append (acc : Option Stage) (xs ys : List (Event I)) :
    stageFrom acc (xs ++ ys) = stageFrom (stageFrom acc xs) ys := by
  simp [stageFrom, List.foldl_append]

theorem stages_append (xs ys : List (Event I)) :
    stages (xs ++ ys) = stageFrom (stages xs) ys :=
  stageFrom_append _ xs ys

theorem stage_step (s : TransactionThread I) (a : Action I)
    (h : stages s.trace = some (stageOf s.worker)) :
    stages (step s a).trace = some (stageOf (step s a).worker) := by
  obtain ⟨img, q, w, d, tr⟩ := s
  simp only at h
  cases a with
  | addTransaction p =>
    cases w <;> simpa [step, TransactionThread.addTransaction, wakeOne, stageOf] using h
  | setImage x => exact h
  | destroy =>
    cases d <;> cases w <;>
      simpa [step, TransactionThread.destructor, wakeOne, stageOf] using h
  | spuriousWakeup =>
    cases w <;> simpa [step, wakeOne, stageOf] using h
  | run =>
    cases w with
    | top =>
      rcases q with _ | ⟨p, rest⟩
      · simp_all [step, TransactionThread.run, stages_append, stageFrom, stageStep, stageOf]
      · cases p <;>
          simp_all [step, TransactionThread.run, TransactionThread.dequeue, stages_append,
            stageFrom, stageStep, stageOf]
    | waiting => exact h
    | woken =>
      rcases q with _ | ⟨p, rest⟩
      · simp_all [step, TransactionThread.run, TransactionThread.dequeue, stages_append,
          stageFrom, stageStep, stageOf]
      · cases p <;>
          simp_all [step, TransactionThread.run, TransactionThread.dequeue, stages_append,
            stageFrom, stageStep, stageOf]
    | dequeued t old =>
      simp_all [step, TransactionThread.run, stages_append, stageFrom, stageStep, stageOf]
    | started t old =>
      simp_all [step, TransactionThread.run, stages_append, stageFrom, stageStep, stageOf]
    | applied new =>
      rcases q with _ | ⟨p, rest⟩ <;>
        simp_all [step, TransactionThread.run, stages_append, stageFrom, stageStep, stageOf]
    | finished => exact h
    | fault => exact h

theorem stage_exec (sched : List (Action I)) :
    ∀ s : TransactionThread I, stages s.trace = some (stageOf s.worker) →
      stages (exec s sched).trace = some (stageOf (exec s sched).worker) := by
  induction sched with
  | nil => intro s h; exact h
  | cons a sched ih => intro s h; exact ih _ (stage_step s a h)

/-- The stage check is not vacuous: it rejects a trace that writes
`currentImage` in one critical section and emits `allTransactionsDone` in
another, one that emits before the write, and one that emits with the mutex
released. -/
theorem stages_rejects :
    stages [Event.lock, Event.unlock, Event.transactionStarted flipH.message,
        Event.apply flipH Picture.null, Event.lock, Event.store Picture.null, Event.unlock,
        Event.lock, Event.allTransactionsDone, Event.unlock] = none
    ∧ stages [Event.lock, Event.unlock, Event.transactionStarted flipH.message,
        Event.apply flipH Picture.null, Event.lock, Event.allTransactionsDone,
        Event.store Picture.null, Event.unlock] = none
    ∧ stages [Event.lock, Event.unlock, Event.transactionStarted flipH.message,
        Event.apply flipH Picture.null, Event.lock, Event.store Picture.null, Event.unlock,
        Event.allTransactionsDone] = none := by
  exact ⟨rfl, rfl, rfl⟩

/-- C8 as stated fails: in the iteration that processes a flip submitted to
a fresh object, `allTransactionsDone` is emitted between the `lock` and the
`unlock` of the second critical section, so the check that wants `apply` and
both signals outside the mutex rejects the trace. -/
theorem lock_discipline_counterexample :
    (exec (TransactionThread.init Picture.qt)
        [Action.addTransaction (some flipH), Action.run, Action.run, Action.run,
          Action.run]).trace
      = [Event.lock, Event.unlock, Event.transactionStarted "Flipping image horizontally...",
          Event.apply flipH Picture.null, Event.lock,
          Event.store (Picture.mirrored true false Picture.null),
          Event.allTransactionsDone, Event.unlock]
    ∧ lockCheck Event.isWork Event.never
        (exec (TransactionThread.init Picture.qt)
          [Action.addTransaction (some flipH), Action.run, Action.run, Action.run,
            Action.run]).trace = none := by
  exact ⟨rfl, rfl⟩

/-- C8, amended.  In every execution from the constructed object the trace
of the secondary thread passes two checks.  The lock check: `apply` and
`transactionStarted` happen with the mutex released, the write of
`currentImage` and `allTransactionsDone` with the mutex held, and locks and
unlocks alternate.  The stage check: after `transactionStarted` and `apply`
the next `lock` opens the second critical section, the write of
`currentImage` is its first event, and `allTransactionsDone` is emitted only
right after that write, before the `unlock` of that same section.  Between
steps the mutex is released (unless the thread has stopped inside
`dequeue()`). -/
theorem lock_discipline (qt : QImageApi I) (sched : List (Action I)) :
    lockCheck Event.isSlowWork Event.isGuarded (exec (TransactionThread.init qt) sched).trace
      = some (exec (TransactionThread.init qt) sched).worker.isFault
    ∧ stages (exec (TransactionThread.init qt) sched).trace
      = some (stageOf (exec (TransactionThread.init qt) sched).worker) :=
  ⟨lock_exec sched (TransactionThread.init qt) rfl,
    stage_exec sched (TransactionThread.init qt) rfl⟩

/-! ## Returning from `wait` -/

theorem woken_step (s : TransactionThread I) (a : Action I)
    (h : (s.worker = Worker.woken → s.transactions ≠ []) ∧ s.worker.isFault = false)
    (ha : a.spurious = false) :
    ((step s a).worker = Worker.woken → (step s a).transactions ≠ [])
      ∧ (step s a).worker.isFault = false := by
  obtain ⟨img, q, w, d, tr⟩ := s
  obtain ⟨h1, h2⟩ := h
  simp only at h1 h2
  cases a with
  | addTransaction p =>
    cases w <;> simp_all [step, TransactionThread.addTransaction, wakeOne, Worker.isFault]
  | setImage x => exact ⟨h1, h2⟩
  | destroy =>
    cases d <;> cases w <;>
      simp_all [step, TransactionThread.destructor, wakeOne, Worker.isFault]
  | spuriousWakeup => simp [Action.spurious] at ha
  | run =>
    cases w with
    | top =>
      rcases q with _ | ⟨p, rest⟩
      · simp [step, TransactionThread.run, Worker.isFault]
      · cases p <;>
          simp [step, TransactionThread.run, TransactionThread.dequeue, Worker.isFault]
    | waiting => simp [step, TransactionThread.run, Worker.isFault]
    | woken =>
      rcases q with _ | ⟨p, rest⟩
      · simp at h1
      · cases p <;>
          simp [step, TransactionThread.run, TransactionThread.dequeue, Worker.isFault]
    | dequeued t old => simp [step, TransactionThread.run, Worker.isFault]
    | started t old => simp [step, TransactionThread.run, Worker.isFault]
    | applied new => simp [step, TransactionThread.run, Worker.isFault]
    | finished => simp [step, TransactionThread.run, Worker.isFault]
    | fault => simp [Worker.isFault] at h2

theorem woken_exec (sched : List (Action I)) :
    ∀ s : TransactionThread I,
      (s.worker = Worker.woken → s.transactions ≠ []) ∧ s.worker.isFault = false →
      (∀ a ∈ sched, a.spurious = false) →
      ((exec s sched).worker = Worker.woken → (exec s sched).transactions ≠ [])
        ∧ (exec s sched).worker.isFault = false := by
  induction sched with
  | nil => intro s h _; exact h
  | cons a sched ih =>
    intro s h hs
    exact ih _ (woken_step s a h (hs a (List.mem_cons_self _ _)))
      (fun b hb => hs b (List.mem_cons_of_mem _ hb))

/-- C5 as stated fails: `run()` tests `isEmpty()` once, before `wait`, with
an `if`.  On a fresh object the thread blocks in `wait`; if `wait` then
returns with nothing enqueued, the thread does not test again and calls
`dequeue()` on the empty queue. -/
theorem spurious_wakeup_counterexample :
    (exec (TransactionThread.init Picture.qt) [Action.run, Action.spuriousWakeup]).transactions
      = []
    ∧ (exec (TransactionThread.init Picture.qt) [Action.run, Action.spuriousWakeup,
        Action.run]).worker.isFault = true := by
  exact ⟨rfl, rfl⟩

/-- C5, amended.  When `wait` returns only after a `wakeOne`, in every
execution from the constructed object (any callers, the destructor, any
interleaving) the queue is not empty whenever the thread has been released
from `wait`, and `dequeue()` is never executed on an empty queue. -/
theorem dequeue_nonempty (qt : QImageApi I) (sched : List (Action I))
    (h : ∀ a ∈ sched, a.spurious = false) :
    ((exec (TransactionThread.init qt) sched).worker = Worker.woken →
        (exec (TransactionThread.init qt) sched).transactions ≠ [])
      ∧ (exec (TransactionThread.init qt) sched).worker.isFault = false :=
  woken_exec sched (TransactionThread.init qt) ⟨by simp [TransactionThread.init], rfl⟩ h

/-- C5, amended, at a concrete input: the thread blocks, a flip is enqueued,
the thread takes it. -/
theorem dequeue_nonempty_witness :
    (∀ a ∈ ([Action.run, Action.addTransaction (some flipH), Action.run] :
        List (Action Picture)), a.spurious = false)
    ∧ (exec (TransactionThread.init Picture.qt)
        [Action.run, Action.addTransaction (some flipH), Action.run]).worker.isFault = false :=
  ⟨by decide,
    (dequeue_nonempty Picture.qt [Action.run, Action.addTransaction (some flipH), Action.run]
      (by decide)).2⟩

/-! ## The sentinel -/

theorem inv_step (s : TransactionThread I) (a : Action I)
    (h : s.destroyed = true → ShutInv s) :
    (step s a).destroyed = true → ShutInv (step s a) := by
  cases hd : s.destroyed with
  | true => intro _; exact shutInv_step s a (h hd)
  | false =>
    cases a with
    | destroy =>
      intro _
      simpa [step, hd] using shutInv_destructor s
    | addTransaction p => simp [step, TransactionThread.addTransaction, hd]
    | setImage x => simp [step, TransactionThread.setImage, hd]
    | spuriousWakeup => simp [step, hd]
    | run =>
      obtain ⟨img, q, w, d, tr⟩ := s
      simp only at hd
      subst hd
      cases w with
      | top =>
        rcases q with _ | ⟨p, rest⟩
        · simp [step, TransactionThread.run]
        · cases p <;> simp [step, TransactionThread.run, TransactionThread.dequeue]
      | woken =>
        rcases q with _ | ⟨p, rest⟩
        · simp [step, TransactionThread.run, TransactionThread.dequeue]
        · cases p <;> simp [step, TransactionThread.run, TransactionThread.dequeue]
      | waiting => simp [step, TransactionThread.run]
      | dequeued t old => simp [step, TransactionThread.run]
      | started t old => simp [step, TransactionThread.run]
      | applied new => simp [step, TransactionThread.run]
      | finished => simp [step, TransactionThread.run]
      | fault => simp [step, TransactionThread.run]

theorem inv_exec (sched : List (Action I)) :
    ∀ s : TransactionThread I, (s.destroyed = true → ShutInv s) →
      (exec s sched).destroyed = true → ShutInv (exec s sched) := by
  induction sched with
  | nil => intro s h; exact h
  | cons a sched ih => intro s h; exact ih _ (inv_step s a h)

theorem alone_step (s : TransactionThread I) (a : Action I) (ha : a.adds = false)
    (h : (s.transactions = [EndTransaction] ∧ s.worker ≠ Worker.waiting)
      ∨ (s.transactions = [] ∧ s.worker = Worker.finished)) :
    ((step s a).transactions = [EndTransaction] ∧ (step s a).worker ≠ Worker.waiting)
      ∨ ((step s a).transactions = [] ∧ (step s a).worker = Worker.finished) := by
  obtain ⟨img, q, w, d, tr⟩ := s
  simp only at h
  cases a with
  | addTransaction p => simp [Action.adds] at ha
  | setImage x => exact h
  | destroy =>
    rcases h with ⟨h1, h2⟩ | ⟨h1, h2⟩
    · subst h1
      cases d <;> cases w <;> simp_all [step, destructor_eq, wakeOne]
    · subst h1 h2
      cases d <;> simp [step, destructor_eq, wakeOne]
  | spuriousWakeup =>
    rcases h with ⟨h1, h2⟩ | ⟨h1, h2⟩
    · subst h1
      cases w <;> simp_all [step, wakeOne]
    · subst h1 h2
      simp [step, wakeOne]
  | run =>
    rcases h with ⟨h1, h2⟩ | ⟨h1, h2⟩
    · subst h1
      cases w <;> simp_all [step, TransactionThread.run, TransactionThread.dequeue]
    · subst h1 h2
      simp [step, TransactionThread.run]

theorem alone_exec (sched : List (Action I)) :
    ∀ s : TransactionThread I, (∀ a ∈ sched, a.adds = false) →
      ((s.transactions = [EndTransaction] ∧ s.worker ≠ Worker.waiting)
        ∨ (s.transactions = [] ∧ s.worker = Worker.finished)) →
      (((exec s sched).transactions = [EndTransaction]
          ∧ (exec s sched).worker ≠ Worker.waiting)
        ∨ ((exec s sched).transactions = [] ∧ (exec s sched).worker = Worker.finished)) := by
  induction sched with
  | nil => intro s _ h; exact h
  | cons a sched ih =>
    intro s hs h
    exact ih _ (fun b hb => hs b (List.mem_cons_of_mem _ hb))
      (alone_step s a (hs a (List.mem_cons_self _ _)) h)

theorem sentinelFirst_iff (q : List (TransactionPtr I)) :
    sentinelFirst q = true ↔ q.head? = some EndTransaction := by
  rcases q with _ | ⟨p, rest⟩
  · simp [sentinelFirst]
  · cases p <;> simp [sentinelFirst]

/-- C9 as stated fails: `addTransaction` appends at the tail whether or not
the destructor has run.  After the destructor's critical section on a fresh
object, a call of `addTransaction` leaves the sentinel in the queue but no
longer last. -/
theorem sentinel_last_counterexample :
    sentinelQueued (exec (TransactionThread.init Picture.qt)
        [Action.destroy, Action.addTransaction (some flipH)]).transactions = true
    ∧ sentinelLast (exec (TransactionThread.init Picture.qt)
        [Action.destroy, Action.addTransaction (some flipH)]).transactions = false := by
  exact ⟨rfl, rfl⟩

/-- C9, amended.  In every state reachable from the constructed object
through `addTransaction`, `setImage`, the destructor's critical section,
steps of `run()` (and returns from `wait`), once the destructor has enqueued
the sentinel either `run()` has returned or the sentinel is the first element
of the queue.  If no `addTransaction` follows the destructor's critical
section, the sentinel is the only element until it is taken.  When the
secondary thread takes the sentinel, `run()` returns: the step only removes
the sentinel and records `lock`, `unlock`; no signal, no call of `message` or
`apply`, `currentImage` unchanged. -/
theorem sentinel_head (qt : QImageApi I) (s : TransactionThread I)
    (sched post : List (Action I)) (rest : List (TransactionPtr I)) :
    ((exec (TransactionThread.init qt) sched).destroyed = true →
      (exec (TransactionThread.init qt) sched).worker = Worker.finished
        ∨ sentinelFirst (exec (TransactionThread.init qt) sched).transactions = true)
    ∧ ((∀ a ∈ post, a.adds = false) →
      (exec s.destructor post).transactions = [EndTransaction]
        ∨ ((exec s.destructor post).transactions = []
          ∧ (exec s.destructor post).worker = Worker.finished))
    ∧ (s.worker = Worker.top ∨ s.worker = Worker.woken →
      s.transactions = EndTransaction :: rest →
      s.run = { s with
        transactions := rest
        worker := Worker.finished
        trace := s.trace ++ [Event.lock, Event.unlock] }) := by
  refine ⟨?_, ?_, ?_⟩
  · intro hd
    have h := inv_exec sched (TransactionThread.init qt)
      (by simp [TransactionThread.init]) hd
    rcases h.2 with h1 | ⟨h1, _⟩
    · exact Or.inl h1
    · exact Or.inr ((sentinelFirst_iff _).2 h1)
  · intro hp
    have h0 : (s.destructor.transactions = [EndTransaction]
        ∧ s.destructor.worker ≠ Worker.waiting)
        ∨ (s.destructor.transactions = [] ∧ s.destructor.worker = Worker.finished) := by
      left
      obtain ⟨img, q, w, d, tr⟩ := s
      cases w <;> simp [destructor_eq, wakeOne]
    rcases alone_exec post s.destructor hp h0 with ⟨h1, _⟩ | h1
    · exact Or.inl h1
    · exact Or.inr h1
  · intro hw hq
    obtain ⟨img, q, w, d, tr⟩ := s
    simp only at hw hq
    subst hq
    rcases hw with hw | hw <;> subst hw <;>
      simp [TransactionThread.run, TransactionThread.dequeue]

/-- C9, amended, at a concrete input: a flip is in flight when the
destructor runs; the thread finishes it, then takes the sentinel. -/
theorem sentinel_head_witness :
    (exec (TransactionThread.init Picture.qt)
        [Action.addTransaction (some flipH), Action.run, Action.destroy]).destroyed = true
    ∧ (∀ a ∈ ([Action.run, Action.run, Action.run] : List (Action Picture)), a.adds = false)
    ∧ sentinelFirst (exec (TransactionThread.init Picture.qt)
        [Action.addTransaction (some flipH), Action.run, Action.destroy]).transactions = true
    ∧ (exec (exec (TransactionThread.init Picture.qt)
          [Action.addTransaction (some flipH), Action.run]).destructor
          [Action.run, Action.run, Action.run]).transactions = [EndTransaction]
    ∧ (exec (exec (TransactionThread.init Picture.qt)
          [Action.addTransaction (some flipH), Action.run]).destructor
          [Action.run, Action.run, Action.run]).run.transactions = [] :=
  ⟨rfl, by decide,
    ((sentinel_head Picture.qt
        (exec (exec (TransactionThread.init Picture.qt)
          [Action.addTransaction (some flipH), Action.run]).destructor
          [Action.run, Action.run, Action.run])
        [Action.addTransaction (some flipH), Action.run, Action.destroy]
        [] []).1 rfl).resolve_left (by simp [exec, step, TransactionThread.init,
          TransactionThread.addTransaction, TransactionThread.run, TransactionThread.dequeue,
          TransactionThread.destructor, wakeOne]),
    ((sentinel_head Picture.qt
        (exec (TransactionThread.init Picture.qt)
          [Action.addTransaction (some flipH), Action.run])
        [] [Action.run, Action.run, Action.run] []).2.1 (by decide)).resolve_right
      (by simp [exec, step, TransactionThread.init,
          TransactionThread.addTransaction, TransactionThread.run, TransactionThread.dequeue,
          TransactionThread.destructor, wakeOne, deleteAll]),
    by
      rw [(sentinel_head Picture.qt
        (exec (exec (TransactionThread.init Picture.qt)
          [Action.addTransaction (some flipH), Action.run]).destructor
          [Action.run, Action.run, Action.run])
        [] [] []).2.2 (Or.inl rfl) rfl]⟩

/-! ## Submitting after the destructor -/

theorem agree_step (a b : TransactionThread I) (x : Action I) (ha : ShutInv a)
    (hb : ShutInv b) (h : Agree a b) : Agree (step a x) (step b x) := by
  obtain ⟨img, q, w, d, tr⟩ := a
  obtain ⟨img1, q1, w1, d1, tr1⟩ := b
  obtain ⟨h1, h2, h3⟩ := h
  obtain ⟨ad, aw⟩ := ha
  obtain ⟨bd, bw⟩ := hb
  simp only at h1 h2 h3 ad aw bd bw
  subst h1 h2 h3 ad bd
  cases x with
  | addTransaction p => exact ⟨rfl, rfl, rfl⟩
  | setImage y => exact ⟨rfl, rfl, rfl⟩
  | destroy => exact ⟨rfl, rfl, rfl⟩
  | spuriousWakeup => exact ⟨rfl, rfl, rfl⟩
  | run =>
    cases w with
    | top =>
      rcases q with _ | ⟨p, rest⟩
      · simp at aw
      · rcases q1 with _ | ⟨p1, rest1⟩
        · simp at bw
        · cases p <;> cases p1 <;> simp at aw bw
          simp [Agree, step, TransactionThread.run, TransactionThread.dequeue]
    | woken =>
      rcases q with _ | ⟨p, rest⟩
      · simp at aw
      · rcases q1 with _ | ⟨p1, rest1⟩
        · simp at bw
        · cases p <;> cases p1 <;> simp at aw bw
          simp [Agree, step, TransactionThread.run, TransactionThread.dequeue]
    | waiting => simp at aw
    | dequeued t old => simp [Agree, step, TransactionThread.run]
    | started t old => simp [Agree, step, TransactionThread.run]
    | applied new =>
      rcases q with _ | ⟨p, rest⟩
      · simp at aw
      · rcases q1 with _ | ⟨p1, rest1⟩
        · simp at bw
        · simp [Agree, step, TransactionThread.run]
    | finished => simp [Agree, step, TransactionThread.run]
    | fault => simp [Agree, step, TransactionThread.run]

theorem agree_exec (sched : List (Action I)) :
    ∀ a b : TransactionThread I, ShutInv a → ShutInv b → Agree a b →
      Agree (exec a sched) (exec b sched) := by
  induction sched with
  | nil => intro a b _ _ h; exact h
  | cons x sched ih =>
    intro a b ha hb h
    exact ih _ _ (shutInv_step a x ha) (shutInv_step b x hb) (agree_step a b x ha hb h)

theorem agree_addTransaction (b : TransactionThread I) (p : TransactionPtr I)
    (hb : ShutInv b) : Agree (b.addTransaction p) b := by
  obtain ⟨img, q, w, d, tr⟩ := b
  obtain ⟨_, hw⟩ := hb
  cases w <;> simp_all [Agree, TransactionThread.addTransaction, wakeOne]

/-- C7 (post-shutdown submission is a no-op).  Take any state of the object
when the destructor runs its critical section (the secondary thread may be
anywhere, also in the middle of an iteration), then any schedule `before`,
a call `addTransaction(p)`, and any schedule `after`.  The execution with the
call and the execution without it end with the same `currentImage`, the same
trace of the secondary thread (so no `transactionStarted` and no call of
`apply` is due to `p`), and the thread at the same place. -/
theorem post_shutdown_add (s : TransactionThread I) (before after : List (Action I))
    (p : TransactionPtr I) :
    (exec s.destructor (before ++ Action.addTransaction p :: after)).image
        = (exec s.destructor (before ++ after)).image
    ∧ (exec s.destructor (before ++ Action.addTransaction p :: after)).trace
        = (exec s.destructor (before ++ after)).trace
    ∧ (exec s.destructor (before ++ Action.addTransaction p :: after)).worker
        = (exec s.destructor (before ++ after)).worker := by
  have h0 : ShutInv (exec s.destructor before) :=
    shutInv_exec before _ (shutInv_destructor s)
  have h1 : Agree ((exec s.destructor before).addTransaction p) (exec s.destructor before) :=
    agree_addTransaction _ p h0
  have h2 := agree_exec after _ _ (shutInv_step _ (Action.addTransaction p) h0) h0 h1
  rw [exec_append, exec_append, exec_cons]
  exact ⟨h2.1, h2.2.2, h2.2.1⟩

/-! ## `setImage` during an iteration -/

/-- C10 (lost update of `setImage`).  If the secondary thread has taken `t`
and copied `currentImage = A` into `oldImage`, a call `setImage(B)` placed
anywhere before the second critical section is overwritten: after the
iteration `image()` is `apply(t, A)`.  If instead `setImage(B)` is executed
while `t` is still at the head of the queue and no iteration is in flight,
the iteration that processes `t` ends with `image()` equal to `apply(t, B)`. -/
theorem lost_update (s r : TransactionThread I) (t : Transaction I)
    (rest : List (TransactionPtr I)) (A B : I)
    (hs : s.worker = Worker.dequeued t A)
    (hr : r.worker = Worker.top ∨ r.worker = Worker.woken)
    (hq : r.transactions = some t :: rest) :
    (exec s [Action.setImage B, Action.run, Action.run, Action.run]).image = t.apply A
    ∧ (exec s [Action.run, Action.setImage B, Action.run, Action.run]).image = t.apply A
    ∧ (exec s [Action.run, Action.run, Action.setImage B, Action.run]).image = t.apply A
    ∧ (r.run.worker = Worker.dequeued t r.currentImage
      ∧ (exec r [Action.run, Action.setImage B, Action.run, Action.run, Action.run]).image
          = t.apply r.currentImage)
    ∧ (exec r [Action.setImage B, Action.run, Action.run, Action.run, Action.run]).image
        = t.apply B := by
  obtain ⟨img, q, w, d, tr⟩ := s
  obtain ⟨img1, q1, w1, d1, tr1⟩ := r
  simp only at hs hr hq
  subst hs hq
  refine ⟨?_, ?_, ?_, ?_, ?_⟩
  · simp [exec, step, TransactionThread.run, TransactionThread.setImage,
      TransactionThread.image]
  · simp [exec, step, TransactionThread.run, TransactionThread.setImage,
      TransactionThread.image]
  · simp [exec, step, TransactionThread.run, TransactionThread.setImage,
      TransactionThread.image]
  · rcases hr with hr | hr <;> subst hr <;>
      simp [exec, step, TransactionThread.run, TransactionThread.dequeue,
        TransactionThread.setImage, TransactionThread.image]
  · rcases hr with hr | hr <;> subst hr <;>
      simp [exec, step, TransactionThread.run, TransactionThread.dequeue,
        TransactionThread.setImage, TransactionThread.image]

/-- C10 at a concrete input: a flip taken with `currentImage = loaded 0`,
`setImage(loaded 1)` called during and before the iteration. -/
theorem lost_update_witness :
    (exec ((TransactionThread.init Picture.qt).setImage (Picture.loaded 0))
        [Action.addTransaction (some flipH), Action.run]).worker
      = Worker.dequeued flipH (Picture.loaded 0)
    ∧ (exec (exec ((TransactionThread.init Picture.qt).setImage (Picture.loaded 0))
        [Action.addTransaction (some flipH), Action.run])
        [Action.run, Action.setImage (Picture.loaded 1), Action.run, Action.run]).image
      = Picture.mirrored true false (Picture.loaded 0)
    ∧ (exec (exec ((TransactionThread.init Picture.qt).setImage (Picture.loaded 0))
        [Action.addTransaction (some flipH)])
        [Action.setImage (Picture.loaded 1), Action.run, Action.run, Action.run,
          Action.run]).image
      = Picture.mirrored true false (Picture.loaded 1) :=
  ⟨rfl,
    (lost_update
      (exec ((TransactionThread.init Picture.qt).setImage (Picture.loaded 0))
        [Action.addTransaction (some flipH), Action.run])
      (exec ((TransactionThread.init Picture.qt).setImage (Picture.loaded 0))
        [Action.addTransaction (some flipH)])
      flipH [] (Picture.loaded 0) (Picture.loaded 1) rfl (Or.inl rfl) rfl).2.1,
    (lost_update
      (exec ((TransactionThread.init Picture.qt).setImage (Picture.loaded 0))
        [Action.addTransaction (some flipH), Action.run])
      (exec ((TransactionThread.init Picture.qt).setImage (Picture.loaded 0))
        [Action.addTransaction (some flipH)])
      flipH [] (Picture.loaded 0) (Picture.loaded 1) rfl (Or.inl rfl) rfl).2.2.2.2⟩

/-! ## A transaction that cannot produce an image -/

/-- C6 as stated fails: `run()` has no failure path.  A transaction whose
`apply` returns a null image is processed like any other: the null image is
stored into `currentImage`, replacing the image that was there, and the only
signals are `transactionStarted` and `allTransactionsDone`. -/
theorem transform_failure_counterexample :
    Picture.isNull (failing.apply (Picture.loaded 0)) = true
    ∧ (exec ((TransactionThread.init Picture.qt).setImage (Picture.loaded 0))
        [Action.addTransaction (some failing), Action.run, Action.run, Action.run,
          Action.run]).image = Picture.null
    ∧ (exec ((TransactionThread.init Picture.qt).setImage (Picture.loaded 0))
        [Action.addTransaction (some failing), Action.run, Action.run, Action.run,
          Action.run]).image
        ≠ ((TransactionThread.init Picture.qt).setImage (Picture.loaded 0)).image
    ∧ notifications (exec ((TransactionThread.init Picture.qt).setImage (Picture.loaded 0))
        [Action.addTransaction (some failing), Action.run, Action.run, Action.run,
          Action.run]).trace
        = [Notification.transactionStarted "Failing...",
            Notification.allTransactionsDone] := by
  refine ⟨rfl, rfl, ?_, rfl⟩
  decide

/-- C6, amended.  For every transaction at the head of the queue, whatever
its `apply` returns (a null image included), one iteration of `run()` stores
that result into `currentImage`, emits `transactionStarted` with the
transaction's message and, if the queue is then empty, `allTransactionsDone`,
and nothing else; the thread is back at the top of the loop with the rest of
the queue, ready for the next transaction. -/
theorem iteration_stores_result (s : TransactionThread I) (t : Transaction I)
    (rest : List (TransactionPtr I))
    (hw : s.worker = Worker.top ∨ s.worker = Worker.woken)
    (hq : s.transactions = some t :: rest) :
    exec s [Action.run, Action.run, Action.run, Action.run]
      = { s with
          currentImage := t.apply s.currentImage
          transactions := rest
          worker := Worker.top
          trace := s.trace ++ [Event.lock, Event.unlock,
            Event.transactionStarted t.message, Event.apply t s.currentImage,
            Event.lock, Event.store (t.apply s.currentImage)]
            ++ (if rest.isEmpty then [Event.allTransactionsDone] else [])
            ++ [Event.unlock] } := by
  obtain ⟨img, q, w, d, tr⟩ := s
  simp only at hw hq
  subst hq
  rcases hw with hw | hw <;> subst hw <;>
    simp [exec, step, TransactionThread.run, TransactionThread.dequeue]

/-- C6, amended, at a concrete input: the failing transaction followed by a
flip; the null image is stored and the flip is next. -/
theorem iteration_stores_result_witness :
    exec ((((TransactionThread.init Picture.qt).setImage (Picture.loaded 0)).addTransaction
        (some failing)).addTransaction (some flipH))
      [Action.run, Action.run, Action.run, Action.run]
    = { currentImage := Picture.null
        transactions := [some flipH]
        worker := Worker.top
        destroyed := false
        trace := [Event.lock, Event.unlock, Event.transactionStarted "Failing...",
          Event.apply failing (Picture.loaded 0), Event.lock, Event.store Picture.null,
          Event.unlock] } :=
  iteration_stores_result
    ((((TransactionThread.init Picture.qt).setImage (Picture.loaded 0)).addTransaction
      (some failing)).addTransaction (some flipH))
    failing [some flipH] (Or.inl rfl) rfl

/-! ## The shape of the signals -/

theorem render_append (xs ys : List (Transaction I × Bool)) :
    render (xs ++ ys) = render xs ++ render ys := by
  induction xs with
  | nil => rfl
  | cons b xs ih => simp [render, ih]

theorem render_snoc (bs : List (Transaction I × Bool)) (t : Transaction I) (flag : Bool) :
    render (bs ++ [(t, flag)])
      = render bs ++ [Notification.transactionStarted t.message]
        ++ (if flag then [Notification.allTransactionsDone] else []) := by
  simp [render_append, render, block]

theorem notif_step (s : TransactionThread I) (a : Action I) (h : NotifInv s) :
    NotifInv (step s a) := by
  obtain ⟨img, q, w, d, tr⟩ := s
  cases a with
  | setImage x => exact h
  | addTransaction p =>
    cases w <;> simp only [NotifInv, step, TransactionThread.addTransaction, wakeOne] at h ⊢
    case started => exact h
    case applied => exact h
    all_goals
      obtain ⟨bs, h1, h2, _⟩ := h
      exact ⟨bs, h1, h2, by simp⟩
  | destroy =>
    cases d
    · cases w <;> simp only [NotifInv, step, destructor_eq, wakeOne] at h ⊢
      case started => simpa using h
      case applied => simpa using h
      all_goals
        obtain ⟨bs, h1, h2, _⟩ := h
        exact ⟨bs, h1, h2, by simp [Worker.idle]⟩
    · exact h
  | spuriousWakeup =>
    cases w <;> simp only [NotifInv, step, wakeOne] at h ⊢
    case started => exact h
    case applied => exact h
    case waiting =>
      obtain ⟨bs, h1, h2, _⟩ := h
      exact ⟨bs, h1, h2, by simp [Worker.idle]⟩
    all_goals exact h
  | run =>
    cases w with
    | top =>
      simp only [NotifInv] at h
      obtain ⟨bs, h1, h2, h3⟩ := h
      rcases q with _ | ⟨p, rest⟩
      · refine ⟨bs, ?_, ?_, ?_⟩
        · simpa [step, TransactionThread.run, notifications, Event.notification] using h1
        · simpa [step, TransactionThread.run, applies, Event.applied] using h2
        · intro _ _
          exact h3 rfl rfl
      · cases p
        · refine ⟨bs, ?_, ?_, ?_⟩
          · simpa [step, TransactionThread.run, TransactionThread.dequeue, notifications,
              Event.notification] using h1
          · simpa [step, TransactionThread.run, TransactionThread.dequeue, applies,
              Event.applied] using h2
          · simp [step, TransactionThread.run, TransactionThread.dequeue, Worker.idle]
        · refine ⟨bs, ?_, ?_, ?_⟩
          · simpa [step, TransactionThread.run, TransactionThread.dequeue, notifications,
              Event.notification] using h1
          · simpa [step, TransactionThread.run, TransactionThread.dequeue, applies,
              Event.applied] using h2
          · simp [step, TransactionThread.run, TransactionThread.dequeue, Worker.idle]
    | waiting => exact h
    | woken =>
      simp only [NotifInv] at h
      obtain ⟨bs, h1, h2, h3⟩ := h
      rcases q with _ | ⟨p, rest⟩
      · refine ⟨bs, ?_, ?_, ?_⟩
        · simpa [step, TransactionThread.run, TransactionThread.dequeue, notifications,
            Event.notification] using h1
        · simpa [step, TransactionThread.run, TransactionThread.dequeue, applies,
            Event.applied] using h2
        · simp [step, TransactionThread.run, TransactionThread.dequeue, Worker.idle]
      · cases p
        · refine ⟨bs, ?_, ?_, ?_⟩
          · simpa [step, TransactionThread.run, TransactionThread.dequeue, notifications,
              Event.notification] using h1
          · simpa [step, TransactionThread.run, TransactionThread.dequeue, applies,
              Event.applied] using h2
          · simp [step, TransactionThread.run, TransactionThread.dequeue, Worker.idle]
        · refine ⟨bs, ?_, ?_, ?_⟩
          · simpa [step, TransactionThread.run, TransactionThread.dequeue, notifications,
              Event.notification] using h1
          · simpa [step, TransactionThread.run, TransactionThread.dequeue, applies,
              Event.applied] using h2
          · simp [step, TransactionThread.run, TransactionThread.dequeue, Worker.idle]
    | dequeued t old =>
      simp only [NotifInv] at h
      obtain ⟨bs, h1, h2, _⟩ := h
      refine ⟨bs, ?_, ?_⟩
      · simp only [step, TransactionThread.run, notifications_append, h1]
        simp [notifications, Event.notification]
      · simpa [step, TransactionThread.run, applies, Event.applied] using h2
    | started t old =>
      simp only [NotifInv] at h
      obtain ⟨bs, h1, h2⟩ := h
      refine ⟨bs, t, ?_, ?_⟩
      · simpa [step, TransactionThread.run, notifications, Event.notification] using h1
      · simp only [step, TransactionThread.run, applies_append, ← h2]
        simp [applies, Event.applied]
    | applied new =>
      simp only [NotifInv] at h
      obtain ⟨bs, t, h1, h2⟩ := h
      rcases q with _ | ⟨p, rest⟩
      · refine ⟨bs ++ [(t, true)], ?_, ?_, ?_⟩
        · simp only [step, TransactionThread.run, notifications_append, h1, render_snoc]
          simp [notifications, Event.notification]
        · simpa [step, TransactionThread.run, applies, Event.applied] using h2
        · intro _ _
          exact Or.inr ⟨bs, t, rfl⟩
      · refine ⟨bs ++ [(t, false)], ?_, ?_, ?_⟩
        · simp only [step, TransactionThread.run, notifications_append, h1, render_snoc]
          simp [notifications, Event.notification]
        · simpa [step, TransactionThread.run, applies, Event.applied] using h2
        · simp [step, TransactionThread.run]
    | finished => exact h
    | fault => exact h

theorem notif_exec (sched : List (Action I)) :
    ∀ s : TransactionThread I, NotifInv s → NotifInv (exec s sched) := by
  induction sched with
  | nil => intro s h; exact h
  | cons a sched ih => intro s h; exact ih _ (notif_step s a h)

theorem notifInv_quiescent (s : TransactionThread I) (h : NotifInv s)
    (hq : quiescent s = true) :
    ∃ bs, notifications s.trace = render bs ∧ bs.map Prod.fst = applies s.trace
      ∧ (bs = [] ∨ ∃ bs0 t, bs = bs0 ++ [(t, true)]) := by
  obtain ⟨img, q, w, d, tr⟩ := s
  obtain ⟨h1, h2⟩ := (quiescent_iff _).1 hq
  simp only at h1 h2
  subst h1
  rcases h2 with h2 | h2 <;> subst h2 <;>
    · simp only [NotifInv] at h
      obtain ⟨bs, e1, e2, e3⟩ := h
      exact ⟨bs, e1, e2, by simpa [Worker.idle] using e3⟩

/-! ## Two transactions, one after the other -/

theorem stores_append (xs ys : List (Event I)) :
    stores (xs ++ ys) = stores xs ++ stores ys := by
  simp [stores, List.filterMap_append]

theorem submits_some (a : Action I) (t : Transaction I) (h : a.submits = some t) :
    a = Action.addTransaction (some t) := by
  cases a with
  | addTransaction p =>
    cases p with
    | none => simp [Action.submits] at h
    | some u =>
      simp [Action.submits] at h
      rw [h]
  | setImage x => simp [Action.submits] at h
  | destroy => simp [Action.submits] at h
  | run => simp [Action.submits] at h
  | spuriousWakeup => simp [Action.submits] at h

theorem plain_run (a : Action I) (hp : a.plain = true) (hs : a.submits = none) :
    a = Action.run := by
  cases a with
  | addTransaction p =>
    cases p with
    | none => simp [Action.plain] at hp
    | some u => simp [Action.submits] at hs
  | setImage x => simp [Action.plain] at hp
  | destroy => simp [Action.plain] at hp
  | run => rfl
  | spuriousWakeup => simp [Action.plain] at hp

/-- A schedule that submits nothing consists of steps of `run()`, so it keeps
whatever every step of `run()` keeps. -/
theorem runs_exec (X : TransactionThread I → Prop) (hX : ∀ s, X s → X s.run)
    (sched : List (Action I)) :
    ∀ s : TransactionThread I, (∀ a ∈ sched, a.plain = true) → submitted sched = [] →
      X s → X (exec s sched) := by
  induction sched with
  | nil => intro s _ _ h; exact h
  | cons a sched ih =>
    intro s hp hs h
    rw [submitted_cons] at hs
    obtain ⟨h1, h2⟩ := List.append_eq_nil.1 hs
    have ha : a.submits = none := by
      cases hsub : a.submits with
      | none => rfl
      | some t => simp [hsub] at h1
    have hr := plain_run a (hp a (List.mem_cons_self _ _)) ha
    subst hr
    exact ih _ (fun b hb => hp b (List.mem_cons_of_mem _ hb)) h2 (hX s h)

/-- Every schedule that submits `ts` and then `r` splits at the call that
submits `r`. -/
theorem split_last (sched : List (Action I)) :
    ∀ (ts : List (Transaction I)) (r : Transaction I), submitted sched = ts ++ [r] →
      ∃ before after, sched = before ++ Action.addTransaction (some r) :: after
        ∧ submitted before = ts ∧ submitted after = [] := by
  induction sched with
  | nil => intro ts r h; simp [submitted] at h
  | cons a sched ih =>
    intro ts r h
    rw [submitted_cons] at h
    cases hsub : a.submits with
    | none =>
      rw [hsub] at h
      obtain ⟨before, after, e1, e2, e3⟩ := ih ts r (by simpa using h)
      refine ⟨a :: before, after, by rw [e1]; rfl, ?_, e3⟩
      rw [submitted_cons, hsub, e2]
      rfl
    | some t =>
      rw [hsub] at h
      have ha := submits_some a t hsub
      cases ts with
      | nil =>
        simp at h
        obtain ⟨h1, h2⟩ := h
        subst h1
        exact ⟨[], sched, by rw [ha]; rfl, rfl, h2⟩
      | cons u ts =>
        simp at h
        obtain ⟨h1, h2⟩ := h
        subst h1
        obtain ⟨before, after, e1, e2, e3⟩ := ih ts r h2
        refine ⟨a :: before, after, by rw [e1]; rfl, ?_, e3⟩
        rw [submitted_cons, hsub, e2]
        rfl

theorem fresh_run (s : TransactionThread I) (h : Fresh s) : Fresh s.run := by
  obtain ⟨img, q, w, d, tr⟩ := s
  obtain ⟨h1, h2, h3, h4⟩ := h
  simp only at h1 h2 h3 h4
  subst h1
  rcases h2 with h2 | h2 <;> subst h2
  · refine ⟨rfl, Or.inr rfl, ?_, ?_⟩
    · simp only [List.isEmpty_cons, List.isEmpty_nil, Bool.false_eq_true, ↓reduceIte,
        TransactionThread.run, notifications_append, h3]
      simp [notifications, Event.notification]
    · simp only [List.isEmpty_cons, List.isEmpty_nil, Bool.false_eq_true, ↓reduceIte,
        TransactionThread.run, stores_append, h4]
      simp [stores, Event.stored]
  · exact ⟨rfl, Or.inr rfl, h3, h4⟩

theorem fresh_add (s : TransactionThread I) (f : Transaction I) (h : Fresh s) :
    Last [] 0 f (s.addTransaction (some f)) := by
  obtain ⟨img, q, w, d, tr⟩ := s
  obtain ⟨h1, h2, h3, h4⟩ := h
  simp only at h1 h2 h3 h4
  subst h1
  rcases h2 with h2 | h2 <;> subst h2
  · exact Or.inl ⟨rfl, h3, by simp [TransactionThread.addTransaction, h4]⟩
  · exact ⟨rfl, h3, by simp [TransactionThread.addTransaction, h4]⟩

theorem last_run (sigs : List Notification) (n : Nat) (r : Transaction I)
    (s : TransactionThread I) (h : Last sigs n r s) : Last sigs n r s.run := by
  obtain ⟨img, q, w, d, tr⟩ := s
  cases w with
  | top =>
    rcases h with ⟨h1, h2, h3⟩ | ⟨h1, h2, h3⟩
    · simp only at h1 h2 h3
      subst h1
      refine ⟨rfl, rfl, ?_, ?_⟩
      · simp only [List.isEmpty_cons, List.isEmpty_nil, Bool.false_eq_true, ↓reduceIte,
        TransactionThread.run, TransactionThread.dequeue, notifications_append, h2]
        simp [notifications, Event.notification]
      · simp only [List.isEmpty_cons, List.isEmpty_nil, Bool.false_eq_true, ↓reduceIte,
        TransactionThread.run, TransactionThread.dequeue, stores_append]
        simp [stores, Event.stored] at h3 ⊢
        exact h3
    · simp only at h1 h2 h3
      subst h1
      refine ⟨rfl, ?_, ?_⟩
      · simp only [List.isEmpty_cons, List.isEmpty_nil, Bool.false_eq_true, ↓reduceIte,
        TransactionThread.run, notifications_append, h2]
        simp [notifications, Event.notification]
      · simp only [List.isEmpty_cons, List.isEmpty_nil, Bool.false_eq_true, ↓reduceIte,
        TransactionThread.run, stores_append]
        simp [stores, Event.stored] at h3 ⊢
        exact h3
  | waiting => exact h
  | woken =>
    obtain ⟨h1, h2, h3⟩ := h
    simp only at h1 h2 h3
    subst h1
    refine ⟨rfl, rfl, ?_, ?_⟩
    · simp only [List.isEmpty_cons, List.isEmpty_nil, Bool.false_eq_true, ↓reduceIte,
        TransactionThread.run, TransactionThread.dequeue, notifications_append, h2]
      simp [notifications, Event.notification]
    · simp only [List.isEmpty_cons, List.isEmpty_nil, Bool.false_eq_true, ↓reduceIte,
        TransactionThread.run, TransactionThread.dequeue, stores_append]
      simp [stores, Event.stored] at h3 ⊢
      exact h3
  | dequeued t old =>
    obtain ⟨h0, h1, h2, h3⟩ := h
    simp only at h1 h2 h3
    subst h0 h1
    refine ⟨rfl, rfl, ?_, ?_⟩
    · simp only [List.isEmpty_cons, List.isEmpty_nil, Bool.false_eq_true, ↓reduceIte,
        TransactionThread.run, notifications_append, h2]
      simp [notifications, Event.notification, startedOf]
    · simp only [List.isEmpty_cons, List.isEmpty_nil, Bool.false_eq_true, ↓reduceIte,
        TransactionThread.run, stores_append]
      simp [stores, Event.stored] at h3 ⊢
      exact h3
  | started t old =>
    obtain ⟨h0, h1, h2, h3⟩ := h
    simp only at h1 h2 h3
    subst h0 h1
    refine ⟨rfl, ?_, ?_⟩
    · simp only [List.isEmpty_cons, List.isEmpty_nil, Bool.false_eq_true, ↓reduceIte,
        TransactionThread.run, notifications_append, h2]
      simp [notifications, Event.notification]
    · simp only [List.isEmpty_cons, List.isEmpty_nil, Bool.false_eq_true, ↓reduceIte,
        TransactionThread.run, stores_append]
      simp [stores, Event.stored] at h3 ⊢
      exact h3
  | applied new =>
    obtain ⟨h1, h2, h3⟩ := h
    simp only at h1 h2 h3
    subst h1
    refine Or.inr ⟨rfl, ?_, ?_⟩
    · simp only [List.isEmpty_cons, List.isEmpty_nil, Bool.false_eq_true, ↓reduceIte,
        TransactionThread.run, notifications_append, h2]
      simp [notifications, Event.notification]
    · simp only [List.isEmpty_cons, List.isEmpty_nil, Bool.false_eq_true, ↓reduceIte,
        TransactionThread.run, stores_append]
      simp [stores, Event.stored] at h3 ⊢
      exact h3
  | finished => exact h
  | fault => exact h

theorem first_run (f r : Transaction I) (s : TransactionThread I)
    (h : FirstOfTwo f r s ∨ Last [startedOf f] 1 r s) :
    FirstOfTwo f r s.run ∨ Last [startedOf f] 1 r s.run := by
  rcases h with h | h
  swap
  · exact Or.inr (last_run _ _ _ _ h)
  obtain ⟨img, q, w, d, tr⟩ := s
  cases w with
  | top =>
    obtain ⟨h1, h2, h3⟩ := h
    simp only at h1 h2 h3
    subst h1
    refine Or.inl ⟨rfl, rfl, ?_, ?_⟩
    · simp only [List.isEmpty_cons, List.isEmpty_nil, Bool.false_eq_true, ↓reduceIte,
        TransactionThread.run, TransactionThread.dequeue, notifications_append, h2]
      simp [notifications, Event.notification]
    · simp only [List.isEmpty_cons, List.isEmpty_nil, Bool.false_eq_true, ↓reduceIte,
        TransactionThread.run, TransactionThread.dequeue, stores_append, h3]
      simp [stores, Event.stored]
  | woken =>
    obtain ⟨h1, h2, h3⟩ := h
    simp only at h1 h2 h3
    subst h1
    refine Or.inl ⟨rfl, rfl, ?_, ?_⟩
    · simp only [List.isEmpty_cons, List.isEmpty_nil, Bool.false_eq_true, ↓reduceIte,
        TransactionThread.run, TransactionThread.dequeue, notifications_append, h2]
      simp [notifications, Event.notification]
    · simp only [List.isEmpty_cons, List.isEmpty_nil, Bool.false_eq_true, ↓reduceIte,
        TransactionThread.run, TransactionThread.dequeue, stores_append, h3]
      simp [stores, Event.stored]
  | dequeued t old =>
    obtain ⟨h0, h1, h2, h3⟩ := h
    simp only at h1 h2 h3
    subst h0 h1
    refine Or.inl ⟨rfl, rfl, ?_, ?_⟩
    · simp only [List.isEmpty_cons, List.isEmpty_nil, Bool.false_eq_true, ↓reduceIte,
        TransactionThread.run, notifications_append, h2]
      simp [notifications, Event.notification, startedOf]
    · simp only [List.isEmpty_cons, List.isEmpty_nil, Bool.false_eq_true, ↓reduceIte,
        TransactionThread.run, stores_append, h3]
      simp [stores, Event.stored]
  | started t old =>
    obtain ⟨h0, h1, h2, h3⟩ := h
    simp only at h1 h2 h3
    subst h0 h1
    refine Or.inl ⟨rfl, ?_, ?_⟩
    · simp only [List.isEmpty_cons, List.isEmpty_nil, Bool.false_eq_true, ↓reduceIte,
        TransactionThread.run, notifications_append, h2]
      simp [notifications, Event.notification]
    · simp only [List.isEmpty_cons, List.isEmpty_nil, Bool.false_eq_true, ↓reduceIte,
        TransactionThread.run, stores_append, h3]
      simp [stores, Event.stored]
  | applied new =>
    obtain ⟨h1, h2, h3⟩ := h
    simp only at h1 h2 h3
    subst h1
    refine Or.inr (Or.inl ⟨rfl, ?_, ?_⟩)
    · simp only [List.isEmpty_cons, List.isEmpty_nil, Bool.false_eq_true, ↓reduceIte,
        TransactionThread.run, notifications_append, h2]
      simp [notifications, Event.notification]
    · simp only [List.isEmpty_cons, List.isEmpty_nil, Bool.false_eq_true, ↓reduceIte,
        TransactionThread.run, stores_append, h3]
      simp [stores, Event.stored]
  | waiting => exact h.elim
  | finished => exact h.elim
  | fault => exact h.elim

theorem last_add_early (f r : Transaction I) (s : TransactionThread I)
    (h : Last [] 0 f s) (hs : stores s.trace = []) :
    FirstOfTwo f r (s.addTransaction (some r)) := by
  obtain ⟨img, q, w, d, tr⟩ := s
  simp only at hs
  cases w with
  | top =>
    rcases h with ⟨h1, h2, _⟩ | ⟨_, _, h3⟩
    · simp only at h1 h2
      subst h1
      exact ⟨rfl, h2, hs⟩
    · simp [hs] at h3
  | waiting =>
    obtain ⟨_, _, h3⟩ := h
    simp [hs] at h3
  | woken =>
    obtain ⟨h1, h2, _⟩ := h
    simp only at h1 h2
    subst h1
    exact ⟨rfl, h2, hs⟩
  | dequeued t old =>
    obtain ⟨h0, h1, h2, _⟩ := h
    simp only at h1 h2
    subst h0 h1
    exact ⟨rfl, rfl, h2, hs⟩
  | started t old =>
    obtain ⟨h0, h1, h2, _⟩ := h
    simp only at h1 h2
    subst h0 h1
    exact ⟨rfl, rfl, by simpa using h2, hs⟩
  | applied new =>
    obtain ⟨h1, h2, _⟩ := h
    simp only at h1 h2
    subst h1
    exact ⟨rfl, by simpa using h2, hs⟩
  | finished => exact h.elim
  | fault => exact h.elim

theorem last_add_late (f r : Transaction I) (s : TransactionThread I)
    (h : Last [] 0 f s) (hs : stores s.trace ≠ []) :
    Last [startedOf f, Notification.allTransactionsDone] 1 r
      (s.addTransaction (some r)) := by
  obtain ⟨img, q, w, d, tr⟩ := s
  simp only at hs
  cases w with
  | top =>
    rcases h with ⟨_, _, h3⟩ | ⟨h1, h2, h3⟩
    · exact absurd (List.length_eq_zero.1 h3) hs
    · simp only at h1 h2 h3
      subst h1
      exact Or.inl ⟨rfl, by simpa using h2, by simpa using h3⟩
  | waiting =>
    obtain ⟨h1, h2, h3⟩ := h
    simp only at h1 h2 h3
    subst h1
    exact ⟨rfl, by simpa using h2, by simpa using h3⟩
  | woken =>
    obtain ⟨_, _, h3⟩ := h
    exact absurd (List.length_eq_zero.1 h3) hs
  | dequeued t old =>
    obtain ⟨_, _, _, h3⟩ := h
    exact absurd (List.length_eq_zero.1 h3) hs
  | started t old =>
    obtain ⟨_, _, _, h3⟩ := h
    exact absurd (List.length_eq_zero.1 h3) hs
  | applied new =>
    obtain ⟨_, _, h3⟩ := h
    exact absurd (List.length_eq_zero.1 h3) hs
  | finished => exact h.elim
  | fault => exact h.elim

theorem last_of_fresh (f : Transaction I) (sched : List (Action I))
    (s : TransactionThread I) (h : Fresh s) (hp : ∀ a ∈ sched, a.plain = true)
    (hs : submitted sched = [f]) : Last [] 0 f (exec s sched) := by
  obtain ⟨before, after, e1, e2, e3⟩ := split_last sched [] f (by simpa using hs)
  subst e1
  have hb : ∀ a ∈ before, a.plain = true := fun a ha =>
    hp a (List.mem_append_left _ ha)
  have ha : ∀ a ∈ after, a.plain = true := fun a ha =>
    hp a (List.mem_append_right _ (List.mem_cons_of_mem _ ha))
  rw [exec_append, exec_cons]
  exact runs_exec (Last [] 0 f) (last_run [] 0 f) after _ ha e3
    (fresh_add _ f (runs_exec Fresh fresh_run before s hb e2 h))

theorem last_quiescent (sigs : List Notification) (n : Nat) (r : Transaction I)
    (s : TransactionThread I) (h : Last sigs n r s) (hq : quiescent s = true) :
    notifications s.trace = sigs ++ [startedOf r, Notification.allTransactionsDone] := by
  obtain ⟨img, q, w, d, tr⟩ := s
  obtain ⟨h1, h2⟩ := (quiescent_iff _).1 hq
  simp only at h1 h2
  subst h1
  rcases h2 with h2 | h2 <;> subst h2
  · rcases h with ⟨h3, _, _⟩ | ⟨_, h4, _⟩
    · simp at h3
    · exact h4
  · exact h.2.1

theorem first_quiescent (f r : Transaction I) (s : TransactionThread I)
    (h : FirstOfTwo f r s) (hq : quiescent s = true) : False := by
  obtain ⟨img, q, w, d, tr⟩ := s
  obtain ⟨h1, h2⟩ := (quiescent_iff _).1 hq
  simp only at h1 h2
  subst h1
  rcases h2 with h2 | h2 <;> subst h2
  · simp [FirstOfTwo] at h
  · exact h

/-- C4 as stated fails: when the secondary thread finishes the flip before
the resize is enqueued, it finds the queue empty after the flip and emits
`allTransactionsDone` there as well, so the signals are started, done,
started, done. -/
theorem flip_resize_counterexample :
    quiescent (exec ((TransactionThread.init Picture.qt).setImage (Picture.loaded 0))
        [Action.addTransaction (some flipH), Action.run, Action.run, Action.run, Action.run,
          Action.addTransaction (some resize100), Action.run, Action.run, Action.run,
          Action.run]) = true
    ∧ notifications (exec ((TransactionThread.init Picture.qt).setImage (Picture.loaded 0))
        [Action.addTransaction (some flipH), Action.run, Action.run, Action.run, Action.run,
          Action.addTransaction (some resize100), Action.run, Action.run, Action.run,
          Action.run]).trace
      = [Notification.transactionStarted "Flipping image horizontally...",
          Notification.allTransactionsDone,
          Notification.transactionStarted "Resizing image...",
          Notification.allTransactionsDone]
    ∧ notifications (exec ((TransactionThread.init Picture.qt).setImage (Picture.loaded 0))
        [Action.addTransaction (some flipH), Action.run, Action.run, Action.run, Action.run,
          Action.addTransaction (some resize100), Action.run, Action.run, Action.run,
          Action.run]).trace
      ≠ [Notification.transactionStarted "Flipping image horizontally...",
          Notification.transactionStarted "Resizing image...",
          Notification.allTransactionsDone] := by
  refine ⟨rfl, rfl, ?_⟩
  decide

/-- C4, amended.  Start with image `A0`, an empty queue, an empty trace and
the secondary thread between iterations.  `before` is any schedule of steps
of `run()` that contains the call
`addTransaction(FlipTransaction(Qt::Horizontal))`; then comes the call
`addTransaction(ResizeTransaction(100x100))`; `after` is any number of steps
of `run()`.  (Every interleaving of the two calls with the secondary thread
has this form, see `split_last`.)  When both have been processed, `image()`
is the resize of the flip of `A0`.  If the secondary thread has not yet
written the flip result to `currentImage` when the resize is enqueued, the
signals are exactly started(flip), started(resize), done.  If it has already
written the flip result when the resize is enqueued, the signals are exactly
started(flip), done, started(resize), done. -/
theorem flip_resize (qt : QImageApi I) (s : TransactionThread I) (A0 : I)
    (before after : List (Action I))
    (hq : s.transactions = [])
    (hw : s.worker = Worker.top ∨ s.worker = Worker.waiting)
    (ht : s.trace = [])
    (hb : ∀ a ∈ before, a.plain = true)
    (ha : ∀ a ∈ after, a.plain = true)
    (hsb : submitted before = [FlipTransaction qt Orientation.Horizontal])
    (hsa : submitted after = [])
    (hdone : quiescent (exec (s.setImage A0)
      (before ++ Action.addTransaction (some (ResizeTransaction qt ⟨100, 100⟩)) :: after))
        = true) :
    (exec (s.setImage A0)
      (before ++ Action.addTransaction (some (ResizeTransaction qt ⟨100, 100⟩)) :: after)).image
        = qt.scaled ⟨100, 100⟩ (qt.mirrored true false A0)
    ∧ (stores (exec (s.setImage A0) before).trace = [] →
      notifications (exec (s.setImage A0)
        (before ++ Action.addTransaction (some (ResizeTransaction qt ⟨100, 100⟩))
          :: after)).trace
        = [Notification.transactionStarted (qt.tr "Flipping image horizontally..."),
            Notification.transactionStarted (qt.tr "Resizing image..."),
            Notification.allTransactionsDone])
    ∧ (stores (exec (s.setImage A0) before).trace ≠ [] →
      notifications (exec (s.setImage A0)
        (before ++ Action.addTransaction (some (ResizeTransaction qt ⟨100, 100⟩))
          :: after)).trace
        = [Notification.transactionStarted (qt.tr "Flipping image horizontally..."),
            Notification.allTransactionsDone,
            Notification.transactionStarted (qt.tr "Resizing image..."),
            Notification.allTransactionsDone]) := by
  have hfresh : Fresh (s.setImage A0) := by
    refine ⟨hq, hw, ?_, ?_⟩
    · show notifications s.trace = []
      rw [ht]
      rfl
    · show stores s.trace = []
      rw [ht]
      rfl
  have h1 := last_of_fresh _ before _ hfresh hb hsb
  have hmf : startedOf (FlipTransaction qt Orientation.Horizontal)
      = Notification.transactionStarted (qt.tr "Flipping image horizontally...") := by
    simp [startedOf, FlipTransaction, FlipTransaction.message]
  have hmr : startedOf (ResizeTransaction qt ⟨100, 100⟩)
      = Notification.transactionStarted (qt.tr "Resizing image...") := rfl
  refine ⟨?_, ?_, ?_⟩
  · have hall : ∀ a ∈ before
        ++ Action.addTransaction (some (ResizeTransaction qt ⟨100, 100⟩)) :: after,
        a.plain = true := by
      intro a hmem
      rcases List.mem_append.1 hmem with hm | hm
      · exact hb a hm
      · rcases List.mem_cons.1 hm with hm | hm
        · rw [hm]
          rfl
        · exact ha a hm
    obtain ⟨f1, _⟩ := plain_result s A0 _ hq hw hall hdone
    have hsub : submitted (before
        ++ Action.addTransaction (some (ResizeTransaction qt ⟨100, 100⟩)) :: after)
        = [FlipTransaction qt Orientation.Horizontal, ResizeTransaction qt ⟨100, 100⟩] := by
      have hsplit : submitted (before
          ++ Action.addTransaction (some (ResizeTransaction qt ⟨100, 100⟩)) :: after)
          = submitted before ++ submitted
            (Action.addTransaction (some (ResizeTransaction qt ⟨100, 100⟩)) :: after) := by
        simp [submitted, List.filterMap_append]
      rw [hsplit, submitted_cons, hsb, hsa]
      rfl
    rw [f1, hsub]
    have hv : (Orientation.Horizontal == Orientation.Vertical) = false := rfl
    simp [foldApply, FlipTransaction, ResizeTransaction, FlipTransaction.apply,
      ResizeTransaction.apply, hv]
  · intro hs
    have h2 := last_add_early _ (ResizeTransaction qt ⟨100, 100⟩) _ h1 hs
    have h3 := runs_exec
      (fun x => FirstOfTwo (FlipTransaction qt Orientation.Horizontal)
          (ResizeTransaction qt ⟨100, 100⟩) x
        ∨ Last [startedOf (FlipTransaction qt Orientation.Horizontal)] 1
          (ResizeTransaction qt ⟨100, 100⟩) x)
      (first_run _ _) after _ ha hsa (Or.inl h2)
    rw [exec_append, exec_cons]
    rw [exec_append, exec_cons] at hdone
    rcases h3 with h3 | h3
    · exact (first_quiescent _ _ _ h3 hdone).elim
    · have e := last_quiescent _ _ _ _ h3 hdone
      rw [hmf, hmr] at e
      exact e
  · intro hs
    have h2 := last_add_late _ (ResizeTransaction qt ⟨100, 100⟩) _ h1 hs
    have h3 := runs_exec _ (last_run _ 1 (ResizeTransaction qt ⟨100, 100⟩)) after _ ha hsa h2
    rw [exec_append, exec_cons]
    rw [exec_append, exec_cons] at hdone
    have e := last_quiescent _ _ _ _ h3 hdone
    rw [hmf, hmr] at e
    exact e

/-- C4, amended, at two concrete inputs: the resize enqueued while the flip
is in flight (three signals), and the resize enqueued after the flip result
has been written (four signals). -/
theorem flip_resize_witness :
    (stores (exec ((TransactionThread.init Picture.qt).setImage (Picture.loaded 0))
        [Action.addTransaction (some flipH), Action.run, Action.run]).trace = []
      ∧ (exec ((TransactionThread.init Picture.qt).setImage (Picture.loaded 0))
        ([Action.addTransaction (some flipH), Action.run, Action.run]
          ++ Action.addTransaction (some resize100)
          :: [Action.run, Action.run, Action.run, Action.run, Action.run, Action.run])).image
        = Picture.scaled ⟨100, 100⟩ (Picture.mirrored true false (Picture.loaded 0))
      ∧ notifications (exec ((TransactionThread.init Picture.qt).setImage (Picture.loaded 0))
        ([Action.addTransaction (some flipH), Action.run, Action.run]
          ++ Action.addTransaction (some resize100)
          :: [Action.run, Action.run, Action.run, Action.run, Action.run, Action.run])).trace
        = [Notification.transactionStarted "Flipping image horizontally...",
            Notification.transactionStarted "Resizing image...",
            Notification.allTransactionsDone])
    ∧ (stores (exec ((TransactionThread.init Picture.qt).setImage (Picture.loaded 0))
        [Action.addTransaction (some flipH), Action.run, Action.run, Action.run,
          Action.run]).trace ≠ []
      ∧ notifications (exec ((TransactionThread.init Picture.qt).setImage (Picture.loaded 0))
        ([Action.addTransaction (some flipH), Action.run, Action.run, Action.run, Action.run]
          ++ Action.addTransaction (some resize100)
          :: [Action.run, Action.run, Action.run, Action.run])).trace
        = [Notification.transactionStarted "Flipping image horizontally...",
            Notification.allTransactionsDone,
            Notification.transactionStarted "Resizing image...",
            Notification.allTransactionsDone]) :=
  ⟨⟨rfl,
      (flip_resize Picture.qt (TransactionThread.init Picture.qt) (Picture.loaded 0)
        [Action.addTransaction (some flipH), Action.run, Action.run]
        [Action.run, Action.run, Action.run, Action.run, Action.run, Action.run]
        rfl (Or.inl rfl) rfl (by decide) (by decide) rfl rfl rfl).1,
      (flip_resize Picture.qt (TransactionThread.init Picture.qt) (Picture.loaded 0)
        [Action.addTransaction (some flipH), Action.run, Action.run]
        [Action.run, Action.run, Action.run, Action.run, Action.run, Action.run]
        rfl (Or.inl rfl) rfl (by decide) (by decide) rfl rfl rfl).2.1 rfl⟩,
    ⟨by decide,
      (flip_resize Picture.qt (TransactionThread.init Picture.qt) (Picture.loaded 0)
        [Action.addTransaction (some flipH), Action.run, Action.run, Action.run, Action.run]
        [Action.run, Action.run, Action.run, Action.run]
        rfl (Or.inl rfl) rfl (by decide) (by decide) rfl rfl rfl).2.2 (by decide)⟩⟩

end ImagePro
